import Mathlib

/-!
Verification of the svcutil service-coordination toolkit.

This file gives a shallow embedding of the parts of the Go source that the
claims are about: the range parsers (hostname.go), the pool-lease supervisor
(lease.go), and the Service session layer.  Store interactions are modelled
by explicit oracles recording which store calls the code makes and what each
call returned; Go machine integers are modelled as Nat or Int with explicit
reduction modulo the word size at the operations where Go wraps.
-/

namespace Svcutil

/-- Error kinds of the toolkit.  Store-level transport errors are carried
unchanged as the transport constructor with an abstract code. -/
inductive Err
  | invalidRange
  | emptyRange
  | ipv6RangeNotSupported
  | noAvailableIDs
  | etcdTimeout
  | transport (code : Nat)
  | deadlineExceeded
deriving DecidableEq, Repr

instance exceptDecEq {ε α : Type} [DecidableEq ε] [DecidableEq α] :
    DecidableEq (Except ε α) := fun x y =>
  match x, y with
  | .error a, .error b =>
    if h : a = b then isTrue (by rw [h])
    else isFalse (by intro hx; cases hx; exact h rfl)
  | .error _, .ok _ => isFalse (by intro hx; cases hx)
  | .ok _, .error _ => isFalse (by intro hx; cases hx)
  | .ok a, .ok b =>
    if h : a = b then isTrue (by rw [h])
    else isFalse (by intro hx; cases hx; exact h rfl)

/-- Decimal digit test, as in Go strconv parsing. -/
def isDigit (c : Char) : Bool := decide ('0' ≤ c) && decide (c ≤ '9')

/-- Numeric value of a decimal digit character. -/
def digitVal (c : Char) : Nat := c.toNat - '0'.toNat

/-- The decimal digit character for a value below ten. -/
def digitChar (d : Nat) : Char :=
  match d with
  | 0 => '0' | 1 => '1' | 2 => '2' | 3 => '3' | 4 => '4'
  | 5 => '5' | 6 => '6' | 7 => '7' | 8 => '8' | _ => '9'

/-- Decimal rendering with an explicit recursion bound; the number of
digits of n never exceeds n, so any fuel of at least n computes the full
rendering. -/
def natReprAux (fuel n : Nat) : List Char :=
  match fuel with
  | 0 => [digitChar n]
  | f + 1 =>
    if n < 10 then [digitChar n]
    else natReprAux f (n / 10) ++ [digitChar (n % 10)]

/-- Decimal rendering of a natural number, as produced by Go strconv.Itoa
on a non-negative value. -/
def natRepr (n : Nat) : List Char := natReprAux n n

/-- Decimal rendering of a Go int, as produced by strconv.Itoa. -/
def itoa (i : Int) : List Char :=
  if i < 0 then '-' :: natRepr (-i).toNat else natRepr i.toNat

/-- Accumulating decimal scan: consumes digits, fails on any non-digit.
This is the digit loop shared by the strconv.Atoi model. -/
def parseDigitsAux (acc : Nat) : List Char → Option Nat
  | [] => some acc
  | c :: rest => if isDigit c then parseDigitsAux (acc * 10 + digitVal c) rest else none

/-- Largest value of a Go int64. -/
def int64Max : Nat := 2 ^ 63 - 1

/-- Model of Go strconv.Atoi (ParseInt base 10, 64-bit): an optional single
sign followed by at least one digit, with the int64 range check. -/
def atoi (l : List Char) : Option Int :=
  match l with
  | [] => none
  | c :: rest =>
    if c = '+' then
      match rest, parseDigitsAux 0 rest with
      | _ :: _, some n => if n ≤ int64Max then some (n : Int) else none
      | _, _ => none
    else if c = '-' then
      match rest, parseDigitsAux 0 rest with
      | _ :: _, some n => if n ≤ 2 ^ 63 then some (-(n : Int)) else none
      | _, _ => none
    else
      match parseDigitsAux 0 l with
      | some n => if n ≤ int64Max then some (n : Int) else none
      | none => none

/-- Digit-run accumulation used by the spec-side member predicates. -/
def dvAux (acc : Nat) (ds : List Char) : Nat :=
  ds.foldl (fun a c => a * 10 + digitVal c) acc

/-- Value of a run of decimal digits. -/
def decimalVal (ds : List Char) : Nat := dvAux 0 ds

/-- Spec-side lexical form of an accepted IPv4 octet, following the amended
claim: an optionally signed nonempty run of decimal digits whose value is
at most 255, where a minus sign is only accepted when the value is zero,
and whose first raw character is not a zero unless the part is one digit
long. -/
def octetSpec (p : List Char) : Prop :=
  ∃ sign digits, p = sign ++ digits ∧
    (sign = [] ∨ sign = ['+'] ∨ sign = ['-']) ∧
    digits ≠ [] ∧ (∀ c ∈ digits, isDigit c = true) ∧
    decimalVal digits ≤ 255 ∧
    (sign = ['-'] → decimalVal digits = 0) ∧
    ¬(p.head? = some '0' ∧ 1 < p.length)

/-- Spec-side lexical form of an accepted ID member, following the amended
claim: an optionally plus-signed nonempty run of decimal digits whose
value fits in an int64 (leading zeros allowed), together with the value it
denotes. -/
def idMemberSpec (t : List Char) (v : Int) : Prop :=
  ∃ sign digits, t = sign ++ digits ∧ (sign = [] ∨ sign = ['+']) ∧
    digits ≠ [] ∧ (∀ c ∈ digits, isDigit c = true) ∧
    decimalVal digits ≤ int64Max ∧ v = ((decimalVal digits : Nat) : Int)

/-- Character membership on char lists, modelling Go strings.Contains with a
single-character needle. -/
def containsCh (c : Char) : List Char → Bool
  | [] => false
  | x :: rest => x = c || containsCh c rest

/-- White space as trimmed by Go strings.TrimSpace (unicode.IsSpace over the
Latin-1 range). -/
def isSpaceGo (c : Char) : Bool :=
  c = ' ' || c = '\t' || c = '\n' || c = '\x0b' || c = '\x0c' || c = '\r' ||
  c = '\x85' || c = '\xa0'

/-- Model of Go strings.TrimSpace. -/
def trimSpace (l : List Char) : List Char :=
  ((l.dropWhile isSpaceGo).reverse.dropWhile isSpaceGo).reverse

/-- Model of Go strings.Split with a one-character separator. -/
def splitCh (sep : Char) : List Char → List (List Char)
  | [] => [[]]
  | c :: rest =>
    match splitCh sep rest with
    | [] => [[]]
    | h :: t => if c = sep then [] :: h :: t else (c :: h) :: t

/-- Join with a separator, the inverse of splitCh. -/
def joinSep (sep : Char) : List (List Char) → List Char
  | [] => []
  | [p] => p
  | p :: rest => p ++ sep :: joinSep sep rest

/-- Prefix test on char lists (first argument is the pattern). -/
def hasPfx : List Char → List Char → Bool
  | [], _ => true
  | _ :: _, [] => false
  | p :: ps, c :: cs => p = c && hasPfx ps cs

/-- Substring test, modelling Go strings.Contains with a multi-character
needle. -/
def containsSub (txt pat : List Char) : Bool :=
  match txt with
  | [] => hasPfx pat []
  | _ :: rest => hasPfx pat txt || containsSub rest pat

/-- Non-overlapping substring count, modelling Go strings.Count.  Fuel
bounds the scan; every iteration consumes at least one character, so fuel
equal to the text length computes the full count. -/
def countSubAux (fuel : Nat) (txt pat : List Char) : Nat :=
  match fuel with
  | 0 => 0
  | f + 1 =>
    match txt with
    | [] => 0
    | c :: rest =>
      if hasPfx pat (c :: rest) then
        1 + countSubAux f (List.drop (pat.length - 1) rest) pat
      else countSubAux f rest pat

/-- Non-overlapping substring count, modelling Go strings.Count. -/
def countSub (txt pat : List Char) : Nat := countSubAux txt.length txt pat

/-- Wrap an integer into the Go int64 range, the silent overflow of Go
int arithmetic. -/
def wrapInt64 (n : Int) : Int := ((n + 2 ^ 63) % 2 ^ 64) - 2 ^ 63

/-- The accumulation loop of ParseIDRange on a hyphen form: for i := start;
i <= end; i++ over Go int.  The loop is partial in Go (when end is the
largest int64 the counter wraps and it never exits), so it is modelled with
fuel; a none result means the Go loop does not terminate within the given
number of iterations. -/
def idLoop (fuel : Nat) (i e : Int) (acc : List Int) : Option (List Int) :=
  match fuel with
  | 0 => none
  | f + 1 => if i ≤ e then idLoop f (wrapInt64 (i + 1)) e (acc ++ [i]) else some acc

/-- Fuel that strictly exceeds the longest possible terminating run of the
int64 counter loop. -/
def idFuel : Nat := 2 ^ 64 + 1

/-- The pool kinds distinguished by a Range. -/
inductive RangeType
  | id
  | ip
deriving DecidableEq, Repr

/-- The Range value: a kind tag and the ordered member strings. -/
structure RangeV where
  rtype : RangeType
  values : List (List Char)
deriving DecidableEq, Repr

/-- The member loop of the comma branch of ParseIDRange: trim each part,
skip empty parts, and fail on any part Atoi rejects. -/
def idMembers : List (List Char) → Except Err (List Int)
  | [] => .ok []
  | p :: rest =>
    let q := trimSpace p
    if q = [] then idMembers rest
    else
      match atoi q with
      | none => .error .invalidRange
      | some n =>
        match idMembers rest with
        | .error e => .error e
        | .ok l => .ok (n :: l)

/-- Model of ParseIDRange from hostname.go.  The outer Option is the
termination of the hyphen-branch counter loop: none models the Go loop
running forever. -/
def ParseIDRange (input0 : List Char) : Option (Except Err (List Int)) :=
  let input := trimSpace input0
  if input = [] then some (.error .invalidRange)
  else
    let branch : Option (Except Err (List Int)) :=
      if containsCh '-' input then
        match splitCh '-' input with
        | [p1, p2] =>
          match atoi (trimSpace p1) with
          | none => some (.error .invalidRange)
          | some start =>
            match atoi (trimSpace p2) with
            | none => some (.error .invalidRange)
            | some e =>
              if start > e then some (.error .invalidRange)
              else
                match idLoop idFuel start e [] with
                | none => none
                | some l => some (.ok l)
        | _ => some (.error .invalidRange)
      else some (idMembers (splitCh ',' input))
    match branch with
    | none => none
    | some (.error e) => some (.error e)
    | some (.ok result) =>
      if result = [] then some (.error .emptyRange) else some (.ok result)

/-- Model of NewIDRange: parse, then render each member with strconv.Itoa.
The outer Option is loop termination; the inner Option is the nil result
Go returns on a parse error. -/
def NewIDRange (value : List Char) : Option (Option RangeV) :=
  match ParseIDRange value with
  | none => none
  | some (.error _) => some none
  | some (.ok ids) => some (some { rtype := .id, values := ids.map itoa })

/-- The loop body of isIPv4: the part must be accepted by Atoi with a value
in the octet range and must not carry a leading zero on a multi-digit
part. -/
def octetOK (part : List Char) : Bool :=
  match atoi part with
  | none => false
  | some num =>
    if num < 0 || num > 255 then false
    else if part.head? = some '0' && part.length > 1 then false
    else true

/-- Model of isIPv4 from hostname.go: four dot-separated parts, each
passing the octet check. -/
def isIPv4 (ip : List Char) : Bool :=
  let parts := splitCh '.' ip
  if parts.length ≠ 4 then false
  else parts.all octetOK

/-- Model of isIPv6 from hostname.go. -/
def isIPv6 (ip : List Char) : Bool :=
  if !containsCh ':' ip then false
  else if containsSub ip [':', ':', ':'] then false
  else
    let parts := splitCh ':' ip
    if parts.length > 8 then false
    else
      let dcc := countSub ip [':', ':']
      if dcc > 1 then false
      else
        let lenOK : Bool :=
          if dcc = 1 then decide (parts.length ≤ 7)
          else decide (parts.length = 8)
        if !lenOK then false
        else parts.all fun part =>
          if part = [] then true
          else if part.length > 4 then false
          else part.all fun c => isDigit c ||
            (decide ('a' ≤ c) && decide (c ≤ 'f')) ||
            (decide ('A' ≤ c) && decide (c ≤ 'F'))

/-- Model of isValidIP from hostname.go. -/
def isValidIP (ip : List Char) : Bool := isIPv4 ip || isIPv6 ip

/-- Model of ipv4ToInt: four Atoi calls with errors ignored, composed by
uint32 shifts and ors. -/
def toUInt32n (i : Int) : Nat := (i % (2 : Int) ^ 32).toNat

/-- One step of the ipv4ToInt loop: result = (result << 8) | uint32(num). -/
def ipv4Step (result : Nat) (part : List Char) : Nat :=
  ((result * 256) % 2 ^ 32) ||| toUInt32n ((atoi part).getD 0)

/-- Model of ipv4ToInt from hostname.go (the loop is a fixed four
iterations). -/
def ipv4ToInt (ip : List Char) : Nat :=
  let parts := splitCh '.' ip
  ipv4Step (ipv4Step (ipv4Step (ipv4Step 0 (parts.getD 0 []))
    (parts.getD 1 [])) (parts.getD 2 [])) (parts.getD 3 [])

/-- Model of intToIPv4 from hostname.go. -/
def intToIPv4 (ip : Nat) : List Char :=
  natRepr ((ip >>> 24) &&& 255) ++ '.' ::
  (natRepr ((ip >>> 16) &&& 255) ++ '.' ::
  (natRepr ((ip >>> 8) &&& 255) ++ '.' :: natRepr (ip &&& 255)))

/-- The accumulation loop of generateIPRange: for i := start; i <= end; i++
over uint32.  Partial in Go (never exits when end is the largest uint32), so
modelled with fuel as for idLoop. -/
def genLoop (fuel : Nat) (i e : Nat) (acc : List (List Char)) :
    Option (List (List Char)) :=
  match fuel with
  | 0 => none
  | f + 1 =>
    if i ≤ e then genLoop f ((i + 1) % 2 ^ 32) e (acc ++ [intToIPv4 i])
    else some acc

/-- Fuel that strictly exceeds the longest possible terminating run of the
uint32 counter loop. -/
def genFuel : Nat := 2 ^ 32 + 1

/-- Model of generateIPRange from hostname.go. -/
def generateIPRange (startIP endIP : List Char) :
    Option (Except Err (List (List Char))) :=
  let s := ipv4ToInt startIP
  let e := ipv4ToInt endIP
  if s > e then some (.error .invalidRange)
  else
    match genLoop genFuel s e [] with
    | none => none
    | some ips => some (.ok ips)

/-- The member loop of the comma branch of ParseIPRange. -/
def ipMembers : List (List Char) → Except Err (List (List Char))
  | [] => .ok []
  | p :: rest =>
    let ip := trimSpace p
    if ip = [] then ipMembers rest
    else if !isValidIP ip then .error .invalidRange
    else
      match ipMembers rest with
      | .error e => .error e
      | .ok l => .ok (ip :: l)

/-- Model of ParseIPRange from hostname.go.  The outer Option is the
termination of the hyphen-branch counter loop. -/
def ParseIPRange (input0 : List Char) : Option (Except Err (List (List Char))) :=
  let input := trimSpace input0
  if input = [] then some (.error .invalidRange)
  else
    let branch : Option (Except Err (List (List Char))) :=
      if containsCh '-' input then
        match splitCh '-' input with
        | [p1, p2] =>
          let s := trimSpace p1
          let e := trimSpace p2
          if !isValidIP s || !isValidIP e then some (.error .invalidRange)
          else if isIPv6 s || isIPv6 e then some (.error .ipv6RangeNotSupported)
          else generateIPRange s e
        | _ => some (.error .invalidRange)
      else some (ipMembers (splitCh ',' input))
    match branch with
    | none => none
    | some (.error e) => some (.error e)
    | some (.ok result) =>
      if result = [] then some (.error .emptyRange) else some (.ok result)

/-! ## Pool lease (lease.go) -/

/-- Lifecycle event kinds reported to the event sink. -/
inductive EventType
  | leaseExpired
  | leaseReacquired
  | leaseIsTakenOver
deriving DecidableEq, Repr

/-- A store call made by the lease code, in order.  casCreateRev0 is the
single transaction comparing the key create revision with zero and putting
the value under the given lease on success. -/
inductive StoreAction
  | grantLease (ttl : Int)
  | casCreateRev0 (key : String) (value : String) (lease : Nat)
  | openKeepAlive (lease : Nat)
  | timeToLive (lease : Nat)
  | revoke (lease : Nat)
deriving DecidableEq, Repr

/-- State of one pool lease as seen by its supervisor loop: the two local
phase bits of worker plus the Lease struct fields it reads and writes. -/
structure WorkerState where
  leaseAlive : Bool
  keepAlive : Bool
  lease : Nat
  leaseKey : String
  hasCloser : Bool
  value : String
deriving DecidableEq, Repr

/-- The state of worker right after a successful Obtain: both phase bits
true, a live keep-alive closer installed. -/
def initWorkerState (value : String) (lease : Nat) (leaseKey : String) : WorkerState :=
  { leaseAlive := true, keepAlive := true, lease := lease,
    leaseKey := leaseKey, hasCloser := true, value := value }

/-- The select arms of the supervisor loop. -/
inductive WorkerInput
  | stopper
  | breaker
  | tick
deriving DecidableEq, Repr

/-- Result of the TimeToLive store call on a tick. -/
inductive TTLResult
  | ttlError
  | ttlExpired
  | ttlAlive
deriving DecidableEq, Repr

/-- Result of opening a keep-alive stream. -/
inductive KAResult
  | kaError
  | kaOk
deriving DecidableEq, Repr

/-- Result of committing the compare-and-set transaction. -/
inductive TxnCommit
  | commitError (e : Err)
  | commitSucceeded
  | commitFailed
deriving DecidableEq, Repr

/-- Store responses available to one supervisor iteration: the TimeToLive
answer, the keep-alive reattach outcome, the reacquire lease grant (none is
a transport error), the reacquire transaction outcome, and the keep-alive
outcome on the reacquired lease. -/
structure TickOracle where
  ttl : TTLResult
  ka : KAResult
  grant : Option Nat
  txn : TxnCommit
  ka2 : KAResult
deriving DecidableEq, Repr

/-- The three outcomes of reacquire in lease.go. -/
inductive ReacquireResult
  | success
  | failure
  | leaseTaken
deriving DecidableEq, Repr

/-- Model of reacquire from lease.go: grant a fresh lease, compare-and-set
the same lease key with value locked, and on success open a keep-alive
stream on the new lease and record it. -/
def reacquire (ttl : Int) (s : WorkerState) (o : TickOracle) :
    ReacquireResult × WorkerState × List StoreAction :=
  match o.grant with
  | none => (.failure, s, [.grantLease ttl])
  | some newLease =>
    match o.txn with
    | .commitError _ =>
      (.failure, s, [.grantLease ttl, .casCreateRev0 s.leaseKey "locked" newLease])
    | .commitFailed =>
      (.leaseTaken, s, [.grantLease ttl, .casCreateRev0 s.leaseKey "locked" newLease])
    | .commitSucceeded =>
      match o.ka2 with
      | .kaError =>
        (.failure, s,
          [.grantLease ttl, .casCreateRev0 s.leaseKey "locked" newLease,
           .openKeepAlive newLease])
      | .kaOk =>
        (.success, { s with hasCloser := true, lease := newLease },
          [.grantLease ttl, .casCreateRev0 s.leaseKey "locked" newLease,
           .openKeepAlive newLease])

/-- Whether the loop iteration falls through to the next iteration or
breaks out of workerloop. -/
inductive Control
  | continueLoop
  | exitLoop
deriving DecidableEq, Repr

/-- Everything one supervisor iteration produces: emitted events (with the
member value), the updated state, the loop control, and the store calls
made. -/
structure StepOut where
  events : List (EventType × String)
  state : WorkerState
  control : Control
  actions : List StoreAction
deriving DecidableEq, Repr

/-- The shared tail of the two tick paths that reach the reacquire switch
in worker. -/
def stepReacquire (ttl : Int) (s : WorkerState) (o : TickOracle)
    (evs : List (EventType × String)) (acts : List StoreAction) : StepOut :=
  match reacquire ttl s o with
  | (.success, s1, a) =>
    { events := evs ++ [(.leaseReacquired, s1.value)],
      state := { s1 with leaseAlive := true, keepAlive := true },
      control := .continueLoop, actions := acts ++ a }
  | (.failure, s1, a) =>
    { events := evs, state := s1, control := .continueLoop, actions := acts ++ a }
  | (.leaseTaken, s1, a) =>
    { events := evs ++ [(.leaseIsTakenOver, s1.value)],
      state := s1, control := .exitLoop, actions := acts ++ a }

/-- One iteration of the supervisor loop of worker in lease.go. -/
def workerStep (ttl : Int) (s : WorkerState) (inp : WorkerInput) (o : TickOracle) :
    StepOut :=
  match inp with
  | .stopper => { events := [], state := s, control := .exitLoop, actions := [] }
  | .breaker =>
    if !s.keepAlive then
      { events := [], state := s, control := .continueLoop, actions := [] }
    else
      { events := [], state := { s with keepAlive := false, hasCloser := false },
        control := .continueLoop, actions := [] }
  | .tick =>
    if s.keepAlive then
      { events := [], state := s, control := .continueLoop, actions := [] }
    else if s.leaseAlive then
      match o.ttl with
      | .ttlError =>
        { events := [], state := s, control := .continueLoop,
          actions := [.timeToLive s.lease] }
      | .ttlAlive =>
        match o.ka with
        | .kaError =>
          { events := [], state := s, control := .continueLoop,
            actions := [.timeToLive s.lease, .openKeepAlive s.lease] }
        | .kaOk =>
          { events := [], state := { s with keepAlive := true, hasCloser := true },
            control := .continueLoop,
            actions := [.timeToLive s.lease, .openKeepAlive s.lease] }
      | .ttlExpired =>
        stepReacquire ttl { s with leaseAlive := false } o
          [(.leaseExpired, s.value)] [.timeToLive s.lease]
    else stepReacquire ttl s o [] []

/-- States the supervisor can actually be in: the initial state after a
successful Obtain, closed under iterations that stay in the loop. -/
inductive WReachable (ttl : Int) : WorkerState → Prop
  | init (value : String) (lease : Nat) (leaseKey : String) :
      WReachable ttl (initWorkerState value lease leaseKey)
  | step (s : WorkerState) (inp : WorkerInput) (o : TickOracle)
      (hs : WReachable ttl s)
      (hc : (workerStep ttl s inp o).control = Control.continueLoop) :
      WReachable ttl ((workerStep ttl s inp o).state)

/-- The result of running the loop on a list of inputs: all events emitted,
the final state, and whether the loop broke out. -/
structure RunOut where
  events : List (EventType × String)
  state : WorkerState
  exited : Bool
deriving DecidableEq, Repr

/-- Run the supervisor loop over a finite schedule of select firings and
oracle answers; once the loop exits, remaining inputs are ignored. -/
def runWorker (ttl : Int) (s : WorkerState) :
    List (WorkerInput × TickOracle) → RunOut
  | [] => { events := [], state := s, exited := false }
  | (inp, o) :: rest =>
    let st := workerStep ttl s inp o
    match st.control with
    | .exitLoop => { events := st.events, state := st.state, exited := true }
    | .continueLoop =>
      let r := runWorker ttl st.state rest
      { events := st.events ++ r.events, state := r.state, exited := r.exited }

/-- Flag value after one event in the alive-scan: emitting expiry marks the
lease dead, the other two events close the episode. -/
def flagAfter (e : EventType) : Bool :=
  match e with
  | .leaseExpired => false
  | .leaseReacquired => true
  | .leaseIsTakenOver => true

/-- Checks the sequencing discipline of an event trace: a LeaseExpired may
only be emitted while the lease is believed alive, and LeaseReacquired and
LeaseIsTakenOver only after an unanswered LeaseExpired. -/
def goodTrace (alive : Bool) : List (EventType × String) → Bool
  | [] => true
  | e :: rest =>
    (match e.1 with
     | .leaseExpired => alive
     | .leaseReacquired => !alive
     | .leaseIsTakenOver => !alive) && goodTrace (flagAfter e.1) rest

/-- Final flag of the alive-scan over a trace. -/
def scanFlag (alive : Bool) (l : List (EventType × String)) : Bool :=
  l.foldl (fun _ e => flagAfter e.1) alive

/-! ## Obtain (lease.go) -/

/-- The options fields the lease key computation reads. -/
structure LeaseOpts where
  locksPfx : String
  serviceName : String
  idsPfx : String
  hostsPfx : String
  hostname : String
deriving DecidableEq, Repr

/-- Model of keyPrefix from lease.go. -/
def keyPfx (o : LeaseOpts) (t : RangeType) : String :=
  match t with
  | .id => o.locksPfx ++ o.serviceName ++ o.idsPfx
  | .ip => o.locksPfx ++ o.serviceName ++ o.hostsPfx ++ o.hostname ++ "/"

/-- A Range as consumed by the lease layer: kind tag plus member strings. -/
structure PoolRange where
  rtype : RangeType
  values : List String
deriving DecidableEq, Repr

/-- Store responses available to one Obtain pass: the lease grant, the
per-key transaction outcome (ok true means the transaction succeeded, ok
false that the key was taken, error a transport failure), the keep-alive
open outcome, and the shuffled member order chosen by rand.Shuffle. -/
structure ObtainOracle where
  grant : Except Err Nat
  txn : String → Except Err Bool
  ka : Except Err Unit
  shuffled : List String

/-- The transaction loop of Obtain: try each member in shuffled order until
a transaction succeeds, recording every compare-and-set issued. -/
def tryKeys (txn : String → Except Err Bool) (pfx : String) (leaseID : Nat) :
    List String → Except Err (Option String) × List StoreAction
  | [] => (.ok none, [])
  | id :: rest =>
    match txn (pfx ++ id) with
    | .error e => (.error e, [.casCreateRev0 (pfx ++ id) "locked" leaseID])
    | .ok true => (.ok (some id), [.casCreateRev0 (pfx ++ id) "locked" leaseID])
    | .ok false =>
      match tryKeys txn pfx leaseID rest with
      | (r, acts) => (r, .casCreateRev0 (pfx ++ id) "locked" leaseID :: acts)

/-- Model of Obtain from lease.go: grant a lease, race the shuffled members
with one compare-and-set each, and on first success open a keep-alive
stream, record the lease fields, and hand the initial supervisor state
back.  On exhaustion it returns ErrNoAvailableIDs. -/
def Obtain (ttl : Int) (opts : LeaseOpts) (r : PoolRange) (o : ObtainOracle) :
    Except Err (String × WorkerState) × List StoreAction :=
  let pfx := keyPfx opts r.rtype
  match o.grant with
  | .error e => (.error e, [.grantLease ttl])
  | .ok leaseID =>
    match tryKeys o.txn pfx leaseID o.shuffled with
    | (.error e, acts) => (.error e, .grantLease ttl :: acts)
    | (.ok none, acts) => (.error .noAvailableIDs, .grantLease ttl :: acts)
    | (.ok (some id), acts) =>
      match o.ka with
      | .error e => (.error e, .grantLease ttl :: (acts ++ [.openKeepAlive leaseID]))
      | .ok _ =>
        (.ok (id, initWorkerState id leaseID (pfx ++ id)),
         .grantLease ttl :: (acts ++ [.openKeepAlive leaseID]))

/-! ## Service session layer (Service, monitorSession, ReleaseLock,
loadConfig) -/

/-- The Service fields the claims are about: the session pointer (with a
generation number standing for the identity of the current session and its
done channel), the mutex registry mapping keys to release-signal identities,
and the set of signals that have been closed. -/
structure ServiceState where
  hasSession : Bool
  sessionGen : Nat
  nextGen : Nat
  mutexes : List (String × Nat)
  closedSignals : List Nat
deriving DecidableEq, Repr

/-- Observable actions of the Service code, in order. -/
inductive SvcAction
  | closeStopper
  | closeSignal (sig : Nat)
  | closeSession (gen : Nat)
  | closeClient
  | waitRetry
deriving DecidableEq, Repr

/-- Model of Service.Close: close the stopper, wait for the monitor to
exit, close the session when one is present, then close the store client.
It touches neither the mutex registry nor any release signal. -/
def ServiceClose (st : ServiceState) : List SvcAction :=
  if st.hasSession then
    [SvcAction.closeStopper, SvcAction.closeSession st.sessionGen, SvcAction.closeClient]
  else [SvcAction.closeStopper, SvcAction.closeClient]

/-- Outcome of the monitor after a done-channel event: monitoring resumed
on the session of the given generation, the monitor returned because the
stopper fired, or the supplied trace of createSession outcomes ran out
while the monitor was still retrying. -/
inductive MonitorOutcome
  | resumed (gen : Nat)
  | stoppedExit
  | pending
deriving DecidableEq, Repr

/-- The retry loop of monitorSession.  Each list entry is one createSession
attempt: the first component tells whether it succeeded, the second whether
the stopper fired during the retry-interval wait after a failure. -/
def retryCreate (st : ServiceState) : List (Bool × Bool) →
    MonitorOutcome × ServiceState × List SvcAction
  | [] => (.pending, st, [])
  | (ok, stopDuringWait) :: rest =>
    if ok then
      (.resumed st.nextGen,
       { st with hasSession := true, sessionGen := st.nextGen, nextGen := st.nextGen + 1 },
       [])
    else if stopDuringWait then (.stoppedExit, st, [.waitRetry])
    else
      match retryCreate st rest with
      | (out, st2, acts) => (out, st2, .waitRetry :: acts)

/-- The Service state right after the locked section of the done-channel
arm of monitorSession: registry cleared, session detached, and every
snapshotted release signal closed. -/
def sessionLossState (st : ServiceState) : ServiceState :=
  { st with
    mutexes := [], hasSession := false,
    closedSignals := st.closedSignals ++ st.mutexes.map (fun r => r.2) }

/-- Model of the done-channel arm of monitorSession: under the lock,
snapshot and clear the mutex registry and detach the dead session (closing
it asynchronously); then close every snapshotted release signal; then retry
createSession until success or stop; on success monitoring resumes on the
new session. -/
def handleSessionDone (st : ServiceState) (retries : List (Bool × Bool)) :
    MonitorOutcome × ServiceState × List SvcAction :=
  let sessActs := if st.hasSession then [SvcAction.closeSession st.sessionGen] else []
  let sigActs := st.mutexes.map (fun r => SvcAction.closeSignal r.2)
  match retryCreate (sessionLossState st) retries with
  | (out, st2, acts) => (out, st2, sessActs ++ sigActs ++ acts)

/-- The options fields the mutex key computation reads. -/
structure MuOpts where
  locksPfx : String
  serviceName : String
  mutexesPfx : String
deriving DecidableEq, Repr

/-- The mutex key: locks prefix, service name, mutexes prefix, user name. -/
def mutexKey (o : MuOpts) (name : String) : String :=
  o.locksPfx ++ o.serviceName ++ o.mutexesPfx ++ name

/-- Registry lookup (Go map read). -/
def regFind (k : String) : List (String × Nat) → Option Nat
  | [] => none
  | (k2, v) :: rest => if k2 = k then some v else regFind k rest

/-- Registry deletion (Go map delete). -/
def regErase (k : String) : List (String × Nat) → List (String × Nat)
  | [] => []
  | (k2, v) :: rest => if k2 = k then regErase k rest else (k2, v) :: regErase k rest

/-- Model of Service.ReleaseLock: a missing record is a successful no-op;
otherwise unlock the store mutex (mapping a deadline error to EtcdTimeout),
and on success close the release signal and drop the record. -/
def ReleaseLock (o : MuOpts) (st : ServiceState) (name : String)
    (unlockResult : Except Err Unit) : Except Err Unit × ServiceState :=
  let key := mutexKey o name
  match regFind key st.mutexes with
  | none => (.ok (), st)
  | some _ =>
    match unlockResult with
    | .error e =>
      (if e = .deadlineExceeded then .error .etcdTimeout else .error e, st)
    | .ok _ =>
      match regFind key st.mutexes with
      | some sig =>
        (.ok (), { st with
                   mutexes := regErase key st.mutexes,
                   closedSignals := st.closedSignals ++ [sig] })
      | none => (.ok (), st)

/-! ## Configuration load (loadConfig) -/

/-- The scalar kinds loadConfig can coerce, plus the unsupported rest. -/
inductive FieldKind
  | fString
  | fInt
  | fBool
  | fOther
deriving DecidableEq, Repr

/-- A scalar field value. -/
inductive ScalarVal
  | vStr (s : String)
  | vInt (n : Int)
  | vBool (b : Bool)
  | vOther
deriving DecidableEq, Repr

/-- One reflected struct field: its name, its json tag, its declared kind,
and whether reflection can set it. -/
structure CfgField where
  fname : String
  tag : String
  kind : FieldKind
  canSet : Bool
deriving DecidableEq, Repr

/-- Model of Go strconv.ParseBool: the twelve accepted literals. -/
def parseGoBool (s : String) : Option Bool :=
  if s = "1" ∨ s = "t" ∨ s = "T" ∨ s = "true" ∨ s = "TRUE" ∨ s = "True" then some true
  else if s = "0" ∨ s = "f" ∨ s = "F" ∨ s = "false" ∨ s = "FALSE" ∨ s = "False" then
    some false
  else none

/-- JSON insignificant white space. -/
def isJSONSpace (c : Char) : Bool := c = ' ' || c = '\t' || c = '\n' || c = '\r'

/-- Digit run of a JSON integer literal: nonempty, all digits, no leading
zero unless the run is the single digit zero. -/
def jsonDigits (ds : List Char) : Bool :=
  match ds with
  | [] => false
  | [c] => isDigit c
  | c :: rest => isDigit c && c ≠ '0' && rest.all isDigit

/-- Model of encoding/json.Unmarshal into an int64: optional JSON white
space around either the literal null or an integer literal (optional
minus, digits without a leading zero), the latter converted by ParseInt
with the int64 range check.  Unmarshalling null returns a nil error
without touching the destination, and loadConfig unmarshals into a freshly
zero-initialised temporary, so a stored null makes the subsequent SetInt
write 0; any other non-integer payload fails and the field keeps its prior
value. -/
def parseJSONInt64 (s : String) : Option Int :=
  let l := ((s.toList.dropWhile isJSONSpace).reverse.dropWhile isJSONSpace).reverse
  if l = ['n', 'u', 'l', 'l'] then some 0
  else
    match l with
    | '-' :: ds =>
      if jsonDigits ds then
        match parseDigitsAux 0 ds with
        | some n => if n ≤ 2 ^ 63 then some (-(n : Int)) else none
        | none => none
      else none
    | ds =>
      if jsonDigits ds then
        match parseDigitsAux 0 ds with
        | some n => if n ≤ int64Max then some (n : Int) else none
        | none => none
      else none

/-- The coercion switch of loadConfig: strings are taken raw, int fields
through the JSON number decoder, bool fields through ParseBool; a failed
parse or an unsupported kind leaves the field untouched. -/
def coerceField (k : FieldKind) (cur : ScalarVal) (value : String) : ScalarVal :=
  match k with
  | .fString => .vStr value
  | .fInt =>
    match parseJSONInt64 value with
    | some n => .vInt n
    | none => cur
  | .fBool =>
    match parseGoBool value with
    | some b => .vBool b
    | none => cur
  | .fOther => cur

/-- What loadConfig does to one field once its GET came back: a present
value is coerced when the field is settable, anything else leaves the
field as it was. -/
def loadOne (get : String → Except Err (Option String)) (path : String)
    (fv : CfgField × ScalarVal) : CfgField × ScalarVal :=
  match get (path ++ fv.1.tag) with
  | .ok (some s) => (fv.1, if fv.1.canSet then coerceField fv.1.kind fv.2 s else fv.2)
  | _ => fv

/-- Model of the field loop of loadConfig: GET each tagged key under the
path; a transport error aborts the whole load, a present value is coerced,
an absent key leaves the default. -/
def loadConfig (get : String → Except Err (Option String)) (path : String) :
    List (CfgField × ScalarVal) → Except Err (List (CfgField × ScalarVal))
  | [] => .ok []
  | (f, v) :: rest =>
    match get (path ++ f.tag) with
    | .error e => .error e
    | .ok none =>
      match loadConfig get path rest with
      | .error e => .error e
      | .ok out => .ok ((f, v) :: out)
    | .ok (some s) =>
      match loadConfig get path rest with
      | .error e => .error e
      | .ok out =>
        .ok ((f, if f.canSet then coerceField f.kind v s else v) :: out)

/-! ## Lemmas: registry -/

theorem regFind_regErase (k : String) (l : List (String × Nat)) :
    regFind k (regErase k l) = none := by
  induction l with
  | nil => rfl
  | cons hd tl ih =>
    obtain ⟨k2, v⟩ := hd
    by_cases h : k2 = k
    · simp [regErase, h, ih]
    · simp [regErase, regFind, h, ih]

theorem retryCreate_state_mutexes (l : List (Bool × Bool)) (st : ServiceState) :
    ((retryCreate st l).2.1).mutexes = st.mutexes := by
  induction l generalizing st with
  | nil => rfl
  | cons hd tl ih =>
    obtain ⟨ok, sw⟩ := hd
    by_cases h1 : ok
    · simp [retryCreate, h1]
    · by_cases h2 : sw
      · simp [retryCreate, h1, h2]
      · simp only [retryCreate, h1, h2, if_false]
        have := ih st
        cases hrc : retryCreate st tl with
        | mk out rest2 =>
          simp [hrc] at this ⊢
          exact this

theorem retryCreate_state_closed (l : List (Bool × Bool)) (st : ServiceState) :
    ((retryCreate st l).2.1).closedSignals = st.closedSignals := by
  induction l generalizing st with
  | nil => rfl
  | cons hd tl ih =>
    obtain ⟨ok, sw⟩ := hd
    by_cases h1 : ok
    · simp [retryCreate, h1]
    · by_cases h2 : sw
      · simp [retryCreate, h1, h2]
      · simp only [retryCreate, h1, h2, if_false]
        have := ih st
        cases hrc : retryCreate st tl with
        | mk out rest2 =>
          simp [hrc] at this ⊢
          exact this

theorem retryCreate_success (pre : List (Bool × Bool)) (st : ServiceState)
    (b : Bool) (rest : List (Bool × Bool)) (hp : ∀ x ∈ pre, x = (false, false)) :
    retryCreate st (pre ++ (true, b) :: rest) =
      (.resumed st.nextGen,
       { st with hasSession := true, sessionGen := st.nextGen, nextGen := st.nextGen + 1 },
       List.replicate pre.length .waitRetry) := by
  induction pre with
  | nil => simp [retryCreate]
  | cons hd tl ih =>
    have hhd := hp hd (by simp)
    subst hhd
    have ih2 := ih (fun x hx => hp x (by simp [hx]))
    simp [retryCreate, ih2, List.replicate_succ]

theorem retryCreate_stop (pre : List (Bool × Bool)) (st : ServiceState)
    (rest : List (Bool × Bool)) (hp : ∀ x ∈ pre, x = (false, false)) :
    retryCreate st (pre ++ (false, true) :: rest) =
      (.stoppedExit, st, List.replicate (pre.length + 1) .waitRetry) := by
  induction pre with
  | nil => simp [retryCreate, List.replicate_succ]
  | cons hd tl ih =>
    have hhd := hp hd (by simp)
    subst hhd
    have ih2 := ih (fun x hx => hp x (by simp [hx]))
    simp [retryCreate, ih2, List.replicate_succ]

/-! ## Claim C4 -/

/-- C4 counterexample: a Service holding one mutex record whose release
signal (identity 42) is not closed by Close — Close emits no closeSignal
action at all, contradicting the claim that every release signal is closed
when the Service closes. -/
theorem c4_close_counterexample :
    ServiceClose { hasSession := true, sessionGen := 0, nextGen := 1,
                   mutexes := [("k", 42)], closedSignals := [] } =
      [SvcAction.closeStopper, SvcAction.closeSession 0, SvcAction.closeClient] ∧
    SvcAction.closeSignal 42 ∉
      ServiceClose { hasSession := true, sessionGen := 0, nextGen := 1,
                     mutexes := [("k", 42)], closedSignals := [] } := by
  refine ⟨rfl, ?_⟩
  decide

/-- C4 (amended): Close stops the monitor via the stopper and then closes
the session, when one is present, before closing the store client; it
closes no mutex release signal — those are closed only by ReleaseLock or by
the monitor on session loss. -/
theorem c4_close_order (st : ServiceState) :
    (st.hasSession = true →
      ServiceClose st =
        [SvcAction.closeStopper, SvcAction.closeSession st.sessionGen,
         SvcAction.closeClient]) ∧
    (st.hasSession = false →
      ServiceClose st = [SvcAction.closeStopper, SvcAction.closeClient]) ∧
    (∀ sig, SvcAction.closeSignal sig ∉ ServiceClose st) := by
  refine ⟨fun h => by simp [ServiceClose, h], fun h => by simp [ServiceClose, h], ?_⟩
  intro sig
  by_cases h : st.hasSession <;> simp [ServiceClose, h]

/-- Witness for c4_close_order at a concrete Service state. -/
theorem c4_close_order_witness :
    ServiceClose { hasSession := true, sessionGen := 3, nextGen := 4,
                   mutexes := [("k", 7)], closedSignals := [] } =
      [SvcAction.closeStopper, SvcAction.closeSession 3, SvcAction.closeClient] :=
  (c4_close_order { hasSession := true, sessionGen := 3, nextGen := 4,
                    mutexes := [("k", 7)], closedSignals := [] }).1 rfl

/-! ## Claim C5 -/

theorem handleSessionDone_expand (st : ServiceState) (retries : List (Bool × Bool)) :
    handleSessionDone st retries =
      ((retryCreate (sessionLossState st) retries).1,
       (retryCreate (sessionLossState st) retries).2.1,
       (if st.hasSession then [SvcAction.closeSession st.sessionGen] else []) ++
         st.mutexes.map (fun r => SvcAction.closeSignal r.2) ++
         (retryCreate (sessionLossState st) retries).2.2) := by
  unfold handleSessionDone
  cases hrc : retryCreate (sessionLossState st) retries with
  | mk out p =>
    obtain ⟨st2, acts⟩ := p
    simp

/-- C5: when the done channel of the active session fires, the monitor
clears the mutex registry, closes the release signal of every record that
was in it, retries session creation until an attempt succeeds or the
stopper fires during a retry wait, and on success resumes monitoring on the
new session (the resumed generation is the new session generation). -/
theorem c5_monitor_session_loss (st : ServiceState) (retries : List (Bool × Bool)) :
    (handleSessionDone st retries).2.1.mutexes = [] ∧
    (∀ r ∈ st.mutexes,
      SvcAction.closeSignal r.2 ∈ (handleSessionDone st retries).2.2 ∧
      r.2 ∈ (handleSessionDone st retries).2.1.closedSignals) ∧
    (∀ pre b rest, retries = pre ++ (true, b) :: rest →
      (∀ x ∈ pre, x = (false, false)) →
      (handleSessionDone st retries).1 =
        .resumed (handleSessionDone st retries).2.1.sessionGen ∧
      (handleSessionDone st retries).2.1.hasSession = true) ∧
    (∀ pre rest, retries = pre ++ (false, true) :: rest →
      (∀ x ∈ pre, x = (false, false)) →
      (handleSessionDone st retries).1 = .stoppedExit) := by
  refine ⟨?_, ?_, ?_, ?_⟩
  · rw [handleSessionDone_expand]
    have h := retryCreate_state_mutexes retries (sessionLossState st)
    simpa [sessionLossState] using h
  · intro r hr
    rw [handleSessionDone_expand]
    have h := retryCreate_state_closed retries (sessionLossState st)
    constructor
    · simp only [List.append_assoc, List.mem_append]
      refine Or.inr (Or.inl ?_)
      exact List.mem_map.2 ⟨r, hr, rfl⟩
    · rw [h]
      simp only [sessionLossState, List.mem_append]
      exact Or.inr (List.mem_map.2 ⟨r, hr, rfl⟩)
  · intro pre b rest hps hp
    subst hps
    rw [handleSessionDone_expand, retryCreate_success pre _ b rest hp]
    simp
  · intro pre rest hps hp
    subst hps
    rw [handleSessionDone_expand, retryCreate_stop pre _ rest hp]

/-- Witness for c5_monitor_session_loss: one held mutex, one failed
createSession attempt followed by a successful one. -/
theorem c5_monitor_session_loss_witness :
    (handleSessionDone
      { hasSession := true, sessionGen := 0, nextGen := 1,
        mutexes := [("m", 9)], closedSignals := [] }
      [(false, false), (true, false)]).2.1.mutexes = [] ∧
    (handleSessionDone
      { hasSession := true, sessionGen := 0, nextGen := 1,
        mutexes := [("m", 9)], closedSignals := [] }
      [(false, false), (true, false)]).1 =
      .resumed (handleSessionDone
        { hasSession := true, sessionGen := 0, nextGen := 1,
          mutexes := [("m", 9)], closedSignals := [] }
        [(false, false), (true, false)]).2.1.sessionGen := by
  have h := c5_monitor_session_loss
    { hasSession := true, sessionGen := 0, nextGen := 1,
      mutexes := [("m", 9)], closedSignals := [] }
    [(false, false), (true, false)]
  exact ⟨h.1, (h.2.2.1 [(false, false)] false [] rfl (by decide)).1⟩

/-! ## Claim C7 -/

/-- C7: ReleaseLock is a successful no-op when no local record exists for
the computed key; releasing an existing record closes its signal and
removes the record; and immediately repeating a release succeeds without
effect. -/
theorem c7_release_lock_idempotent (o : MuOpts) (st : ServiceState) (name : String) :
    (regFind (mutexKey o name) st.mutexes = none →
      ∀ u, ReleaseLock o st name u = (.ok (), st)) ∧
    (∀ sig, regFind (mutexKey o name) st.mutexes = some sig →
      ∃ st2, ReleaseLock o st name (.ok ()) = (.ok (), st2) ∧
        sig ∈ st2.closedSignals ∧ regFind (mutexKey o name) st2.mutexes = none) ∧
    (∀ u2, ReleaseLock o (ReleaseLock o st name (.ok ())).2 name u2 =
      (.ok (), (ReleaseLock o st name (.ok ())).2)) := by
  refine ⟨?_, ?_, ?_⟩
  · intro h u
    simp [ReleaseLock, h]
  · intro sig h
    refine ⟨{ st with
              mutexes := regErase (mutexKey o name) st.mutexes,
              closedSignals := st.closedSignals ++ [sig] }, ?_, ?_, ?_⟩
    · simp [ReleaseLock, h]
    · simp
    · simp [regFind_regErase]
  · intro u2
    cases h : regFind (mutexKey o name) st.mutexes with
    | none =>
      have h1 : ReleaseLock o st name (.ok ()) = (.ok (), st) := by
        simp [ReleaseLock, h]
      rw [h1]
      simp [ReleaseLock, h]
    | some sig =>
      have h1 : ReleaseLock o st name (.ok ()) =
          (.ok (), { st with
                     mutexes := regErase (mutexKey o name) st.mutexes,
                     closedSignals := st.closedSignals ++ [sig] }) := by
        simp [ReleaseLock, h]
      rw [h1]
      simp [ReleaseLock, regFind_regErase]

/-- Witness for c7_release_lock_idempotent: a registry with the record
present, released twice. -/
theorem c7_release_lock_idempotent_witness :
    (∃ st2,
      ReleaseLock { locksPfx := "/locks/", serviceName := "svc", mutexesPfx := "/mutexes/" }
        { hasSession := true, sessionGen := 0, nextGen := 1,
          mutexes := [("/locks/svc/mutexes/res", 5)], closedSignals := [] }
        "res" (.ok ()) = (.ok (), st2) ∧
      5 ∈ st2.closedSignals ∧
      regFind (mutexKey
        { locksPfx := "/locks/", serviceName := "svc", mutexesPfx := "/mutexes/" } "res")
        st2.mutexes = none) ∧
    (ReleaseLock { locksPfx := "/locks/", serviceName := "svc", mutexesPfx := "/mutexes/" }
      (ReleaseLock { locksPfx := "/locks/", serviceName := "svc", mutexesPfx := "/mutexes/" }
        { hasSession := true, sessionGen := 0, nextGen := 1,
          mutexes := [("/locks/svc/mutexes/res", 5)], closedSignals := [] }
        "res" (.ok ())).2 "res" (.ok ()) =
      (.ok (), (ReleaseLock
        { locksPfx := "/locks/", serviceName := "svc", mutexesPfx := "/mutexes/" }
        { hasSession := true, sessionGen := 0, nextGen := 1,
          mutexes := [("/locks/svc/mutexes/res", 5)], closedSignals := [] }
        "res" (.ok ())).2)) := by
  have h := c7_release_lock_idempotent
    { locksPfx := "/locks/", serviceName := "svc", mutexesPfx := "/mutexes/" }
    { hasSession := true, sessionGen := 0, nextGen := 1,
      mutexes := [("/locks/svc/mutexes/res", 5)], closedSignals := [] } "res"
  exact ⟨h.2.1 5 (by decide), h.2.2 (.ok ())⟩

/-! ## Claim C6 -/

/-- C6 (amended): when every per-field GET succeeds, loadConfig succeeds
and acts fieldwise as loadOne, and loadOne keeps the prior value on an
absent key, an unsupported kind, or a value the int or bool decoder
rejects; a stored JSON null on a settable int field is not rejected by the
decoder - it unmarshals as a no-op on the zero-initialised temporary, so
the field is overwritten with 0; a GET transport error on any field (all
earlier GETs having succeeded) fails the whole load with that error. -/
theorem c6_load_config_frame (get : String → Except Err (Option String))
    (path : String) (fields : List (CfgField × ScalarVal)) :
    ((∀ fv ∈ fields, ∃ r, get (path ++ fv.1.tag) = .ok r) →
      loadConfig get path fields = .ok (fields.map (loadOne get path))) ∧
    (∀ f v, get (path ++ f.tag) = .ok none → loadOne get path (f, v) = (f, v)) ∧
    (∀ f v, f.kind = .fOther → loadOne get path (f, v) = (f, v)) ∧
    (∀ f v s, get (path ++ f.tag) = .ok (some s) → f.kind = .fInt →
      parseJSONInt64 s = none → loadOne get path (f, v) = (f, v)) ∧
    (∀ f v, get (path ++ f.tag) = .ok (some "null") → f.kind = .fInt →
      f.canSet = true → loadOne get path (f, v) = (f, .vInt 0)) ∧
    (∀ f v s, get (path ++ f.tag) = .ok (some s) → f.kind = .fBool →
      parseGoBool s = none → loadOne get path (f, v) = (f, v)) ∧
    (∀ pre f v rest e, fields = pre ++ (f, v) :: rest →
      (∀ fv ∈ pre, ∃ r, get (path ++ fv.1.tag) = .ok r) →
      get (path ++ f.tag) = .error e →
      loadConfig get path fields = .error e) := by
  refine ⟨?_, ?_, ?_, ?_, ?_, ?_, ?_⟩
  · intro hok
    induction fields with
    | nil => rfl
    | cons hd tl ih =>
      obtain ⟨f, v⟩ := hd
      obtain ⟨r, hr⟩ := hok (f, v) (by simp)
      have ih2 := ih (fun fv hfv => hok fv (by simp [hfv]))
      cases r with
      | none => simp [loadConfig, hr, ih2, loadOne]
      | some s => simp [loadConfig, hr, ih2, loadOne]
  · intro f v h
    simp [loadOne, h]
  · intro f v h
    unfold loadOne
    cases hg : get (path ++ f.tag) with
    | error e => rfl
    | ok r =>
      cases r with
      | none => rfl
      | some s => simp [h, coerceField]
  · intro f v s hg hk hp
    simp [loadOne, hg, hk, coerceField, hp]
  · intro f v hg hk hcs
    simp [loadOne, hg, hk, hcs, coerceField,
      show parseJSONInt64 "null" = some 0 from rfl]
  · intro f v s hg hk hp
    simp [loadOne, hg, hk, coerceField, hp]
  · intro pre f v rest e hfs hok hg
    subst hfs
    induction pre with
    | nil => simp [loadConfig, hg]
    | cons hd tl ih =>
      obtain ⟨f2, v2⟩ := hd
      obtain ⟨r, hr⟩ := hok (f2, v2) (by simp)
      have ih2 := ih (fun fv hfv => hok fv (by simp [hfv]))
      cases r with
      | none => simp [loadConfig, hr, ih2]
      | some s => simp [loadConfig, hr, ih2]

/-- Witness for c6_load_config_frame: two fields, an int field whose stored
value does not parse and a bool field whose key is absent; the load
succeeds and both keep their prior values. -/
theorem c6_load_config_frame_witness :
    loadConfig
      (fun k => if k = "/configs/svc/port" then .ok (some "not-a-number")
        else .ok none) "/configs/svc/"
      [({ fname := "Port", tag := "port", kind := .fInt, canSet := true },
        .vInt 8080),
       ({ fname := "Debug", tag := "debug", kind := .fBool, canSet := true },
        .vBool false)] =
      .ok [({ fname := "Port", tag := "port", kind := .fInt, canSet := true },
        .vInt 8080),
       ({ fname := "Debug", tag := "debug", kind := .fBool, canSet := true },
        .vBool false)] := by
  have h := c6_load_config_frame
    (fun k => if k = "/configs/svc/port" then .ok (some "not-a-number")
      else .ok none) "/configs/svc/"
    [({ fname := "Port", tag := "port", kind := .fInt, canSet := true },
      .vInt 8080),
     ({ fname := "Debug", tag := "debug", kind := .fBool, canSet := true },
      .vBool false)]
  have h1 := h.1 (by
    intro fv hfv
    simp at hfv
    rcases hfv with h2 | h2 <;> subst h2 <;> simp)
  rw [h1]
  rfl

/-- C6 counterexample: a stored JSON null is not an integer literal, yet a
settable int field does not keep its prior value - json.Unmarshal of null
returns a nil error without writing the zero-initialised temporary, so the
subsequent SetInt overwrites the field with 0 and the load still
succeeds. -/
theorem c6_load_config_null_counterexample :
    loadConfig (fun _ => .ok (some "null")) "/configs/svc/"
      [({ fname := "Port", tag := "port", kind := .fInt, canSet := true },
        .vInt 7)] =
      .ok [({ fname := "Port", tag := "port", kind := .fInt, canSet := true },
        .vInt 0)] ∧
    (ScalarVal.vInt 0 ≠ .vInt 7) ∧
    jsonDigits (String.toList "null") = false :=
  ⟨by rfl, by decide, by decide⟩

/-! ## Lemmas: lease supervisor -/

theorem wreachable_not_keepAlive {ttl : Int} {s : WorkerState}
    (h : WReachable ttl s) (ha : s.leaseAlive = false) : s.keepAlive = false := by
  induction h with
  | init v l k => simp [initWorkerState] at ha
  | step s inp o hs hc ih =>
    obtain ⟨ottl, oka, ogrant, otxn, oka2⟩ := o
    cases inp with
    | stopper => simp [workerStep] at hc
    | breaker =>
      by_cases hk : s.keepAlive
      · simp [workerStep, hk]
      · simp [workerStep, hk]
    | tick =>
      by_cases hk : s.keepAlive
      · have ha2 : s.leaseAlive = false := by simpa [workerStep, hk] using ha
        exact absurd (ih ha2) (by simp [hk])
      · by_cases hl : s.leaseAlive
        · cases ottl with
          | ttlError => simp [workerStep, hk, hl]
          | ttlAlive =>
            cases oka with
            | kaError => simp [workerStep, hk, hl]
            | kaOk => simp [workerStep, hk, hl] at ha
          | ttlExpired =>
            cases ogrant with
            | none => simp [workerStep, stepReacquire, reacquire, hk, hl]
            | some nl =>
              cases otxn with
              | commitError e =>
                simp [workerStep, stepReacquire, reacquire, hk, hl]
              | commitFailed =>
                simp [workerStep, stepReacquire, reacquire, hk, hl] at hc
              | commitSucceeded =>
                cases oka2 with
                | kaError =>
                  simp [workerStep, stepReacquire, reacquire, hk, hl]
                | kaOk =>
                  simp [workerStep, stepReacquire, reacquire, hk, hl] at ha
        · cases ogrant with
          | none => simp [workerStep, stepReacquire, reacquire, hk, hl]
          | some nl =>
            cases otxn with
            | commitError e =>
              simp [workerStep, stepReacquire, reacquire, hk, hl]
            | commitFailed =>
              simp [workerStep, stepReacquire, reacquire, hk, hl] at hc
            | commitSucceeded =>
              cases oka2 with
              | kaError =>
                simp [workerStep, stepReacquire, reacquire, hk, hl]
              | kaOk =>
                simp [workerStep, stepReacquire, reacquire, hk, hl] at ha

/-! ## Claim C1 -/

/-- C1: on a tick in a reachable supervisor state whose lease is no longer
believed alive, the supervisor runs reacquire: it grants a fresh lease and
issues exactly one compare-and-set on the recorded lease key with value
locked; on transaction success plus a successful keep-alive open it emits
LeaseReacquired with the member value, sets both phase bits, and records
the new lease; on transaction failure it emits LeaseIsTakenOver and exits
the loop; on a transport error of the grant or transaction, or a keep-alive
open failure, it changes nothing and stays in the loop for the next tick. -/
theorem c1_reacquire_step (ttl : Int) (s : WorkerState) (o : TickOracle)
    (hr : WReachable ttl s) (ha : s.leaseAlive = false) :
    s.keepAlive = false ∧
    (o.grant = none →
      workerStep ttl s .tick o =
        { events := [], state := s, control := .continueLoop,
          actions := [.grantLease ttl] }) ∧
    (∀ nl, o.grant = some nl →
      (o.txn = .commitSucceeded → o.ka2 = .kaOk →
        workerStep ttl s .tick o =
          { events := [(.leaseReacquired, s.value)],
            state := { s with
                       leaseAlive := true, keepAlive := true,
                       hasCloser := true, lease := nl },
            control := .continueLoop,
            actions := [.grantLease ttl, .casCreateRev0 s.leaseKey "locked" nl,
                        .openKeepAlive nl] }) ∧
      (o.txn = .commitFailed →
        workerStep ttl s .tick o =
          { events := [(.leaseIsTakenOver, s.value)], state := s,
            control := .exitLoop,
            actions := [.grantLease ttl,
                        .casCreateRev0 s.leaseKey "locked" nl] }) ∧
      (∀ e, o.txn = .commitError e →
        workerStep ttl s .tick o =
          { events := [], state := s, control := .continueLoop,
            actions := [.grantLease ttl,
                        .casCreateRev0 s.leaseKey "locked" nl] }) ∧
      (o.txn = .commitSucceeded → o.ka2 = .kaError →
        workerStep ttl s .tick o =
          { events := [], state := s, control := .continueLoop,
            actions := [.grantLease ttl, .casCreateRev0 s.leaseKey "locked" nl,
                        .openKeepAlive nl] })) := by
  have hk := wreachable_not_keepAlive hr ha
  refine ⟨hk, ?_, ?_⟩
  · intro hg
    simp [workerStep, stepReacquire, reacquire, hk, ha, hg]
  · intro nl hg
    refine ⟨?_, ?_, ?_, ?_⟩
    · intro ht hka
      simp [workerStep, stepReacquire, reacquire, hk, ha, hg, ht, hka]
    · intro ht
      simp [workerStep, stepReacquire, reacquire, hk, ha, hg, ht]
    · intro e ht
      simp [workerStep, stepReacquire, reacquire, hk, ha, hg, ht]
    · intro ht hka
      simp [workerStep, stepReacquire, reacquire, hk, ha, hg, ht, hka]

/-- Witness for c1_reacquire_step: a state reached by a breaker firing and
a tick that observed the lease expired, followed by a successful
reacquisition tick. -/
theorem c1_reacquire_step_witness :
    workerStep 30
      { leaseAlive := false, keepAlive := false, lease := 7, leaseKey := "k",
        hasCloser := false, value := "1" } .tick
      { ttl := .ttlError, ka := .kaOk, grant := some 9,
        txn := .commitSucceeded, ka2 := .kaOk } =
      { events := [(.leaseReacquired, "1")],
        state := { leaseAlive := true, keepAlive := true, lease := 9,
                   leaseKey := "k", hasCloser := true, value := "1" },
        control := .continueLoop,
        actions := [.grantLease 30, .casCreateRev0 "k" "locked" 9,
                    .openKeepAlive 9] } := by
  have hreach : WReachable 30
      { leaseAlive := false, keepAlive := false, lease := 7, leaseKey := "k",
        hasCloser := false, value := "1" } := by
    have h0 := @WReachable.init 30 "1" 7 "k"
    have h1 := @WReachable.step 30 (initWorkerState "1" 7 "k") .breaker
      { ttl := .ttlError, ka := .kaOk, grant := none,
        txn := .commitFailed, ka2 := .kaOk } h0 (by decide)
    have h2 := @WReachable.step 30
      { leaseAlive := true, keepAlive := false, lease := 7, leaseKey := "k",
        hasCloser := false, value := "1" } .tick
      { ttl := .ttlExpired, ka := .kaOk, grant := none,
        txn := .commitFailed, ka2 := .kaOk } (by simpa using h1) (by decide)
    simpa using h2
  have h := c1_reacquire_step 30
    { leaseAlive := false, keepAlive := false, lease := 7, leaseKey := "k",
      hasCloser := false, value := "1" }
    { ttl := .ttlError, ka := .kaOk, grant := some 9,
      txn := .commitSucceeded, ka2 := .kaOk } hreach rfl
  exact (h.2.2 9 rfl).1 rfl rfl

/-! ## Claim C2 -/

theorem scanFlag_cons (a : Bool) (e : EventType × String)
    (rest : List (EventType × String)) :
    scanFlag a (e :: rest) = scanFlag (flagAfter e.1) rest := by
  simp [scanFlag]

theorem goodTrace_append (a : Bool) (xs ys : List (EventType × String)) :
    goodTrace a (xs ++ ys) = (goodTrace a xs && goodTrace (scanFlag a xs) ys) := by
  induction xs generalizing a with
  | nil => simp [goodTrace, scanFlag]
  | cons e rest ih =>
    simp only [List.cons_append, goodTrace, scanFlag_cons, List.append_eq,
      ih (flagAfter e.1), Bool.and_assoc]

theorem scanFlag_append (a : Bool) (xs ys : List (EventType × String)) :
    scanFlag a (xs ++ ys) = scanFlag (scanFlag a xs) ys := by
  simp [scanFlag, List.foldl_append]

theorem scanFlag_concat (a : Bool) (p : List (EventType × String))
    (x : EventType × String) : scanFlag a (p ++ [x]) = flagAfter x.1 := by
  simp [scanFlag, List.foldl_append]

theorem workerStep_goodTrace (ttl : Int) (s : WorkerState) (inp : WorkerInput)
    (o : TickOracle) :
    goodTrace s.leaseAlive (workerStep ttl s inp o).events = true ∧
    ((workerStep ttl s inp o).control = .continueLoop →
      scanFlag s.leaseAlive (workerStep ttl s inp o).events =
        (workerStep ttl s inp o).state.leaseAlive) ∧
    (workerStep ttl s inp o).state.value = s.value ∧
    (∀ e ∈ (workerStep ttl s inp o).events, e.2 = s.value) := by
  obtain ⟨ottl, oka, ogrant, otxn, oka2⟩ := o
  cases inp with
  | stopper => simp [workerStep, goodTrace, scanFlag]
  | breaker =>
    by_cases hk : s.keepAlive <;> simp [workerStep, hk, goodTrace, scanFlag]
  | tick =>
    by_cases hk : s.keepAlive
    · simp [workerStep, hk, goodTrace, scanFlag]
    · by_cases hl : s.leaseAlive
      · cases ottl with
        | ttlError => simp [workerStep, hk, hl, goodTrace, scanFlag]
        | ttlAlive =>
          cases oka with
          | kaError => simp [workerStep, hk, hl, goodTrace, scanFlag]
          | kaOk => simp [workerStep, hk, hl, goodTrace, scanFlag]
        | ttlExpired =>
          cases ogrant with
          | none =>
            simp [workerStep, stepReacquire, reacquire, hk, hl, goodTrace,
              scanFlag, flagAfter]
          | some nl =>
            cases otxn with
            | commitError e =>
              simp [workerStep, stepReacquire, reacquire, hk, hl, goodTrace,
                scanFlag, flagAfter]
            | commitFailed =>
              simp [workerStep, stepReacquire, reacquire, hk, hl, goodTrace,
                scanFlag, flagAfter]
            | commitSucceeded =>
              cases oka2 with
              | kaError =>
                simp [workerStep, stepReacquire, reacquire, hk, hl, goodTrace,
                  scanFlag, flagAfter]
              | kaOk =>
                simp [workerStep, stepReacquire, reacquire, hk, hl, goodTrace,
                  scanFlag, flagAfter]
      · cases ogrant with
        | none =>
          simp [workerStep, stepReacquire, reacquire, hk, hl, goodTrace,
            scanFlag, flagAfter]
        | some nl =>
          cases otxn with
          | commitError e =>
            simp [workerStep, stepReacquire, reacquire, hk, hl, goodTrace,
              scanFlag, flagAfter]
          | commitFailed =>
            simp [workerStep, stepReacquire, reacquire, hk, hl, goodTrace,
              scanFlag, flagAfter]
          | commitSucceeded =>
            cases oka2 with
            | kaError =>
              simp [workerStep, stepReacquire, reacquire, hk, hl, goodTrace,
                scanFlag, flagAfter]
            | kaOk =>
              simp [workerStep, stepReacquire, reacquire, hk, hl, goodTrace,
                scanFlag, flagAfter]

theorem runWorker_cons_exit {ttl : Int} {s : WorkerState} {inp : WorkerInput}
    {o : TickOracle} (rest : List (WorkerInput × TickOracle))
    (h : (workerStep ttl s inp o).control = .exitLoop) :
    runWorker ttl s ((inp, o) :: rest) =
      { events := (workerStep ttl s inp o).events,
        state := (workerStep ttl s inp o).state, exited := true } := by
  simp [runWorker, h]

theorem runWorker_cons_cont {ttl : Int} {s : WorkerState} {inp : WorkerInput}
    {o : TickOracle} (rest : List (WorkerInput × TickOracle))
    (h : (workerStep ttl s inp o).control = .continueLoop) :
    runWorker ttl s ((inp, o) :: rest) =
      { events := (workerStep ttl s inp o).events ++
          (runWorker ttl (workerStep ttl s inp o).state rest).events,
        state := (runWorker ttl (workerStep ttl s inp o).state rest).state,
        exited := (runWorker ttl (workerStep ttl s inp o).state rest).exited } := by
  simp [runWorker, h]

theorem runWorker_goodTrace (ttl : Int) (inputs : List (WorkerInput × TickOracle))
    (s : WorkerState) :
    goodTrace s.leaseAlive (runWorker ttl s inputs).events = true ∧
    ((runWorker ttl s inputs).exited = false →
      scanFlag s.leaseAlive (runWorker ttl s inputs).events =
        (runWorker ttl s inputs).state.leaseAlive) ∧
    (runWorker ttl s inputs).state.value = s.value ∧
    (∀ e ∈ (runWorker ttl s inputs).events, e.2 = s.value) := by
  induction inputs generalizing s with
  | nil => simp [runWorker, goodTrace, scanFlag]
  | cons hd rest ih =>
    obtain ⟨inp, o⟩ := hd
    have hstep := workerStep_goodTrace ttl s inp o
    cases hctl : (workerStep ttl s inp o).control with
    | exitLoop =>
      rw [runWorker_cons_exit rest hctl]
      exact ⟨hstep.1, by simp, hstep.2.2.1, hstep.2.2.2⟩
    | continueLoop =>
      have ih2 := ih ((workerStep ttl s inp o).state)
      rw [runWorker_cons_cont rest hctl]
      refine ⟨?_, ?_, ?_, ?_⟩
      · rw [goodTrace_append, hstep.2.1 hctl]
        simp [hstep.1, ih2.1]
      · intro hex
        rw [scanFlag_append, hstep.2.1 hctl]
        exact ih2.2.1 hex
      · rw [ih2.2.2.1, hstep.2.2.1]
      · intro e he
        rcases List.mem_append.1 he with he2 | he2
        · exact hstep.2.2.2 e he2
        · rw [ih2.2.2.2 e he2, hstep.2.2.1]

theorem goodTrace_split (evs pre post : List (EventType × String))
    (e : EventType × String) (hg : goodTrace true evs = true)
    (hsplit : evs = pre ++ e :: post)
    (he : e.1 = .leaseReacquired ∨ e.1 = .leaseIsTakenOver) :
    ∃ p w, pre = p ++ [(EventType.leaseExpired, w)] := by
  subst hsplit
  rw [goodTrace_append, Bool.and_eq_true] at hg
  have hg2 := hg.2
  have hf : scanFlag true pre = false := by
    obtain ⟨k, w⟩ := e
    cases k with
    | leaseExpired => rcases he with he | he <;> simp at he
    | leaseReacquired =>
      simp [goodTrace] at hg2
      exact hg2.1
    | leaseIsTakenOver =>
      simp [goodTrace] at hg2
      exact hg2.1
  rcases List.eq_nil_or_concat pre with hnil | ⟨p, x, hx⟩
  · subst hnil
    simp [scanFlag] at hf
  · subst hx
    simp only [List.concat_eq_append] at hf ⊢
    rw [scanFlag_concat] at hf
    obtain ⟨k, w⟩ := x
    cases k with
    | leaseExpired => exact ⟨p, w, rfl⟩
    | leaseReacquired => simp [flagAfter] at hf
    | leaseIsTakenOver => simp [flagAfter] at hf

/-- C2: over any schedule, the trace a pool-lease supervisor emits from its
initial state is well sequenced: every LeaseReacquired or LeaseIsTakenOver
event carries the member value and is immediately preceded by a
LeaseExpired event for the same value, so neither is ever emitted while
lease alive still holds. -/
theorem c2_expired_precedes (ttl : Int) (v : String) (l : Nat) (k : String)
    (inputs : List (WorkerInput × TickOracle)) :
    goodTrace true (runWorker ttl (initWorkerState v l k) inputs).events = true ∧
    (∀ pre e post,
      (runWorker ttl (initWorkerState v l k) inputs).events = pre ++ e :: post →
      e.1 = .leaseReacquired ∨ e.1 = .leaseIsTakenOver →
      e.2 = v ∧ ∃ p, pre = p ++ [(EventType.leaseExpired, v)]) := by
  have hrun := runWorker_goodTrace ttl inputs (initWorkerState v l k)
  have hg : goodTrace true (runWorker ttl (initWorkerState v l k) inputs).events =
      true := by
    have := hrun.1
    simpa [initWorkerState] using this
  refine ⟨hg, ?_⟩
  intro pre e post hsplit he
  have hval : e.2 = v := by
    have hmem : e ∈ (runWorker ttl (initWorkerState v l k) inputs).events := by
      rw [hsplit]; simp
    simpa [initWorkerState] using hrun.2.2.2 e hmem
  obtain ⟨p, w, hp⟩ := goodTrace_split _ pre post e hg hsplit he
  have hw : w = v := by
    have hmem : (EventType.leaseExpired, w) ∈
        (runWorker ttl (initWorkerState v l k) inputs).events := by
      rw [hsplit, hp]; simp
    simpa [initWorkerState] using hrun.2.2.2 _ hmem
  subst hw
  exact ⟨hval, p, hp⟩

/-- Witness for c2_expired_precedes: a breaker firing then a tick that sees
the lease expired and reacquires it; the trace is LeaseExpired then
LeaseReacquired, and the theorem recovers the preceding LeaseExpired. -/
theorem c2_expired_precedes_witness :
    (EventType.leaseReacquired, "1").2 = "1" ∧
    ∃ p, [(EventType.leaseExpired, "1")] =
      p ++ [(EventType.leaseExpired, "1")] := by
  have h := c2_expired_precedes 30 "1" 7 "k"
    [(.breaker, { ttl := .ttlError, ka := .kaOk, grant := none,
                  txn := .commitFailed, ka2 := .kaOk }),
     (.tick, { ttl := .ttlExpired, ka := .kaOk, grant := some 9,
               txn := .commitSucceeded, ka2 := .kaOk })]
  exact h.2 [(EventType.leaseExpired, "1")] (EventType.leaseReacquired, "1") []
    (by decide) (Or.inl rfl)

/-! ## Claim C3 -/

theorem tryKeys_all_fail (txn : String → Except Err Bool) (pfx : String)
    (lid : Nat) (ids : List String)
    (h : ∀ m ∈ ids, txn (pfx ++ m) = .ok false) :
    tryKeys txn pfx lid ids =
      (.ok none, ids.map (fun m => .casCreateRev0 (pfx ++ m) "locked" lid)) := by
  induction ids with
  | nil => rfl
  | cons hd tl ih =>
    have hhd := h hd (by simp)
    have ih2 := ih (fun m hm => h m (by simp [hm]))
    simp [tryKeys, hhd, ih2]

theorem tryKeys_error (txn : String → Except Err Bool) (pfx : String)
    (lid : Nat) (xs : List String) (m : String) (ys : List String) (e : Err)
    (hx : ∀ x ∈ xs, txn (pfx ++ x) = .ok false)
    (hm : txn (pfx ++ m) = .error e) :
    tryKeys txn pfx lid (xs ++ m :: ys) =
      (.error e,
       xs.map (fun x => .casCreateRev0 (pfx ++ x) "locked" lid) ++
         [.casCreateRev0 (pfx ++ m) "locked" lid]) := by
  induction xs with
  | nil => simp [tryKeys, hm]
  | cons hd tl ih =>
    have hhd := hx hd (by simp)
    have ih2 := ih (fun x h2 => hx x (by simp [h2]))
    simp [tryKeys, hhd, ih2]

/-- C3 counterexample: a pass over pool members 1 and 2 in which every
compare-and-set reports the key already created — Obtain returns
NoAvailableIDs but never issues a revoke on the lease (7) it granted,
contradicting the claim that the unused lease is revoked. -/
theorem c3_obtain_counterexample :
    Obtain 30 { locksPfx := "/locks/", serviceName := "svc", idsPfx := "/ids/",
                hostsPfx := "/hosts/", hostname := "h" }
      { rtype := .id, values := ["1", "2"] }
      { grant := .ok 7, txn := fun _ => .ok false, ka := .ok (),
        shuffled := ["2", "1"] } =
      (.error .noAvailableIDs,
       [.grantLease 30, .casCreateRev0 "/locks/svc/ids/2" "locked" 7,
        .casCreateRev0 "/locks/svc/ids/1" "locked" 7]) ∧
    (∀ lid, StoreAction.revoke lid ∉
      (Obtain 30 { locksPfx := "/locks/", serviceName := "svc", idsPfx := "/ids/",
                   hostsPfx := "/hosts/", hostname := "h" }
        { rtype := .id, values := ["1", "2"] }
        { grant := .ok 7, txn := fun _ => .ok false, ka := .ok (),
          shuffled := ["2", "1"] }).2) := by
  refine ⟨rfl, ?_⟩
  intro lid
  show StoreAction.revoke lid ∉
    [StoreAction.grantLease 30, .casCreateRev0 "/locks/svc/ids/2" "locked" 7,
     .casCreateRev0 "/locks/svc/ids/1" "locked" 7]
  simp

/-- C3 (amended): when the transaction fails for every member of the
shuffled copy of the range, Obtain returns NoAvailableIDs without revoking
the lease it granted (the lease is simply left to expire by its TTL); a
transport error of the grant or of any transaction aborts the pass and is
returned to the caller unchanged. -/
theorem c3_obtain_errors (ttl : Int) (opts : LeaseOpts) (r : PoolRange)
    (o : ObtainOracle) :
    (∀ lid, o.grant = .ok lid → o.shuffled.Perm r.values →
      (∀ m ∈ o.shuffled, o.txn (keyPfx opts r.rtype ++ m) = .ok false) →
      Obtain ttl opts r o =
        (.error .noAvailableIDs,
         .grantLease ttl :: o.shuffled.map
           (fun m => .casCreateRev0 (keyPfx opts r.rtype ++ m) "locked" lid)) ∧
      (∀ lid2, StoreAction.revoke lid2 ∉ (Obtain ttl opts r o).2)) ∧
    (∀ e, o.grant = .error e →
      Obtain ttl opts r o = (.error e, [.grantLease ttl])) ∧
    (∀ lid e xs m ys, o.grant = .ok lid → o.shuffled = xs ++ m :: ys →
      (∀ x ∈ xs, o.txn (keyPfx opts r.rtype ++ x) = .ok false) →
      o.txn (keyPfx opts r.rtype ++ m) = .error e →
      Obtain ttl opts r o =
        (.error e, .grantLease ttl ::
          (xs.map (fun x => .casCreateRev0 (keyPfx opts r.rtype ++ x) "locked" lid) ++
           [.casCreateRev0 (keyPfx opts r.rtype ++ m) "locked" lid]))) := by
  refine ⟨?_, ?_, ?_⟩
  · intro lid hg _hperm htxn
    have heq : Obtain ttl opts r o =
        (.error .noAvailableIDs,
         .grantLease ttl :: o.shuffled.map
           (fun m => .casCreateRev0 (keyPfx opts r.rtype ++ m) "locked" lid)) := by
      simp only [Obtain, hg,
        tryKeys_all_fail o.txn (keyPfx opts r.rtype) lid o.shuffled htxn]
    refine ⟨heq, ?_⟩
    intro lid2
    rw [heq]
    simp
  · intro e hg
    simp only [Obtain, hg]
  · intro lid e xs m ys hg hs hx hm
    simp only [Obtain, hg, hs,
      tryKeys_error o.txn (keyPfx opts r.rtype) lid xs m ys e hx hm]

/-- Witness for c3_obtain_errors: the all-taken pass of the counterexample
oracle and a transport error on the second member of another pass. -/
theorem c3_obtain_errors_witness :
    Obtain 30 { locksPfx := "/locks/", serviceName := "svc", idsPfx := "/ids/",
                hostsPfx := "/hosts/", hostname := "h" }
      { rtype := .id, values := ["1", "2"] }
      { grant := .ok 7, txn := fun k => if k = "/locks/svc/ids/1" then
          .error (.transport 13) else .ok false,
        ka := .ok (), shuffled := ["2", "1"] } =
      (.error (.transport 13),
       [.grantLease 30, .casCreateRev0 "/locks/svc/ids/2" "locked" 7,
        .casCreateRev0 "/locks/svc/ids/1" "locked" 7]) := by
  have h := c3_obtain_errors 30
    { locksPfx := "/locks/", serviceName := "svc", idsPfx := "/ids/",
      hostsPfx := "/hosts/", hostname := "h" }
    { rtype := .id, values := ["1", "2"] }
    { grant := .ok 7, txn := fun k => if k = "/locks/svc/ids/1" then
        .error (.transport 13) else .ok false,
      ka := .ok (), shuffled := ["2", "1"] }
  have h2 := h.2.2 7 (.transport 13) ["2"] "1" [] rfl rfl
    (by intro x hx; simp at hx; subst hx; rfl) (by rfl)
  simpa using h2

/-! ## Lemmas: digits and decimal rendering -/

theorem isDigit_digitChar {d : Nat} (h : d < 10) : isDigit (digitChar d) = true := by
  interval_cases d <;> decide

theorem digitVal_digitChar {d : Nat} (h : d < 10) : digitVal (digitChar d) = d := by
  interval_cases d <;> decide

theorem digitChar_ne_zero {d : Nat} (h1 : 0 < d) (h2 : d < 10) :
    digitChar d ≠ '0' := by
  interval_cases d <;> decide

theorem natReprAux_congr : ∀ n f1 f2, n ≤ f1 → n ≤ f2 →
    natReprAux f1 n = natReprAux f2 n := by
  intro n
  induction n using Nat.strong_induction_on with
  | _ n ih =>
    intro f1 f2 h1 h2
    by_cases hn : n < 10
    · cases f1 with
      | zero =>
        cases f2 with
        | zero => rfl
        | succ g2 => simp only [natReprAux, if_pos hn]
      | succ g1 =>
        cases f2 with
        | zero => simp only [natReprAux, if_pos hn]
        | succ g2 => simp only [natReprAux, if_pos hn]
    · cases f1 with
      | zero => omega
      | succ g1 =>
        cases f2 with
        | zero => omega
        | succ g2 =>
          simp only [natReprAux, if_neg hn]
          rw [ih (n / 10) (by omega) g1 g2 (by omega) (by omega)]

theorem natRepr_lt {n : Nat} (h : n < 10) : natRepr n = [digitChar n] := by
  unfold natRepr
  cases n with
  | zero => rfl
  | succ m => simp [natReprAux, h]

theorem natRepr_ge {n : Nat} (h : 10 ≤ n) :
    natRepr n = natRepr (n / 10) ++ [digitChar (n % 10)] := by
  unfold natRepr
  obtain ⟨f, rfl⟩ : ∃ f, n = f + 1 := ⟨n - 1, by omega⟩
  simp only [natReprAux, if_neg (show ¬(f + 1 < 10) by omega)]
  rw [natReprAux_congr ((f + 1) / 10) f ((f + 1) / 10) (by omega) (le_refl _)]

theorem natRepr_ne_nil (n : Nat) : natRepr n ≠ [] := by
  by_cases h : n < 10
  · rw [natRepr_lt h]
    simp
  · rw [natRepr_ge (Nat.not_lt.1 h)]
    simp

theorem natRepr_digits (n : Nat) : ∀ c ∈ natRepr n, isDigit c = true := by
  induction n using Nat.strong_induction_on with
  | _ n ih =>
    by_cases h : n < 10
    · rw [natRepr_lt h]
      intro c hc
      simp at hc
      subst hc
      exact isDigit_digitChar h
    · rw [natRepr_ge (Nat.not_lt.1 h)]
      intro c hc
      rcases List.mem_append.1 hc with hc | hc
      · exact ih (n / 10) (Nat.div_lt_self (by omega) (by omega)) c hc
      · simp at hc
        subst hc
        exact isDigit_digitChar (Nat.mod_lt _ (by omega))

theorem parseDigitsAux_append (acc : Nat) (xs ys : List Char) :
    parseDigitsAux acc (xs ++ ys) =
      match parseDigitsAux acc xs with
      | none => none
      | some m => parseDigitsAux m ys := by
  induction xs generalizing acc with
  | nil => simp [parseDigitsAux]
  | cons c rest ih =>
    by_cases h : isDigit c
    · simp [parseDigitsAux, h, ih]
    · simp [parseDigitsAux, h]

theorem parseDigitsAux_natRepr (n : Nat) :
    ∀ acc, parseDigitsAux acc (natRepr n) =
      some (acc * 10 ^ (natRepr n).length + n) := by
  induction n using Nat.strong_induction_on with
  | _ n ih =>
    intro acc
    by_cases h : n < 10
    · rw [natRepr_lt h]
      simp [parseDigitsAux, isDigit_digitChar h, digitVal_digitChar h]
    · have h10 : 10 ≤ n := Nat.not_lt.1 h
      rw [natRepr_ge h10, parseDigitsAux_append,
        ih (n / 10) (Nat.div_lt_self (by omega) (by omega)) acc]
      have hm : n % 10 < 10 := Nat.mod_lt _ (by omega)
      simp only [parseDigitsAux, isDigit_digitChar hm, digitVal_digitChar hm,
        if_true, List.length_append, List.length_cons, List.length_nil]
      have hd : n / 10 * 10 + n % 10 = n := by omega
      have harith : (acc * 10 ^ (natRepr (n / 10)).length + n / 10) * 10 + n % 10
          = acc * 10 ^ ((natRepr (n / 10)).length + (0 + 1)) + n := by
        calc (acc * 10 ^ (natRepr (n / 10)).length + n / 10) * 10 + n % 10
            = acc * (10 ^ (natRepr (n / 10)).length * 10) +
              (n / 10 * 10 + n % 10) := by ring
          _ = acc * 10 ^ ((natRepr (n / 10)).length + (0 + 1)) + n := by
              rw [hd]; ring
      rw [harith]

theorem natRepr_head_ne_zero {n : Nat} (h : 1 ≤ n) :
    ∀ c, (natRepr n).head? = some c → c ≠ '0' := by
  induction n using Nat.strong_induction_on with
  | _ n ih =>
    intro c hc
    by_cases h10 : n < 10
    · rw [natRepr_lt h10] at hc
      simp at hc
      subst hc
      exact digitChar_ne_zero h h10
    · rw [natRepr_ge (Nat.not_lt.1 h10)] at hc
      obtain ⟨a, t, hat⟩ := List.exists_cons_of_ne_nil (natRepr_ne_nil (n / 10))
      rw [hat] at hc
      simp at hc
      subst hc
      refine ih (n / 10) (Nat.div_lt_self (by omega) (by omega)) (by omega) a ?_
      rw [hat]
      rfl

theorem natRepr_no_leading_zero (n : Nat) :
    ¬((natRepr n).head? = some '0' ∧ 1 < (natRepr n).length) := by
  rcases Nat.eq_zero_or_pos n with h0 | hpos
  · subst h0
    rw [natRepr_lt (by omega)]
    simp
  · rintro ⟨hh, _⟩
    exact natRepr_head_ne_zero hpos '0' hh rfl

theorem atoi_natRepr {n : Nat} (h : n ≤ int64Max) :
    atoi (natRepr n) = some (n : Int) := by
  obtain ⟨c, rest, hcr⟩ := List.exists_cons_of_ne_nil (natRepr_ne_nil n)
  have hcd : isDigit c = true := natRepr_digits n c (by rw [hcr]; simp)
  have hplus : ¬(c = '+') := fun he => absurd hcd (by subst he; decide)
  have hminus : ¬(c = '-') := fun he => absurd hcd (by subst he; decide)
  have hp := parseDigitsAux_natRepr n 0
  rw [hcr] at hp
  simp only [zero_mul, zero_add] at hp
  rw [hcr]
  simp [atoi, hplus, hminus, hp, h]

theorem parseDigitsAux_digits : ∀ (l : List Char) (acc v : Nat),
    parseDigitsAux acc l = some v → ∀ c ∈ l, isDigit c = true := by
  intro l
  induction l with
  | nil =>
    intro acc v _ c hc
    simp at hc
  | cons hd tl ih =>
    intro acc v h c hc
    by_cases hh : isDigit hd
    · simp only [parseDigitsAux, hh, if_true] at h
      rcases List.mem_cons.1 hc with hc | hc
      · subst hc; exact hh
      · exact ih _ _ h c hc
    · simp [parseDigitsAux, hh] at h

theorem parseDigitsAux_of_digits {l : List Char}
    (h : ∀ c ∈ l, isDigit c = true) :
    ∀ acc, parseDigitsAux acc l = some (dvAux acc l) := by
  induction l with
  | nil => intro acc; simp [parseDigitsAux, dvAux]
  | cons hd tl ih =>
    intro acc
    have hh := h hd (by simp)
    have ih2 := ih (fun c hc => h c (by simp [hc]))
    simp [parseDigitsAux, hh, dvAux] at ih2 ⊢
    exact ih2 _

/-! ## Lemmas: char-list utilities -/

theorem containsCh_iff (c : Char) (l : List Char) :
    containsCh c l = true ↔ c ∈ l := by
  induction l with
  | nil => simp [containsCh]
  | cons x rest ih =>
    simp only [containsCh, Bool.or_eq_true, decide_eq_true_eq, ih, List.mem_cons]
    constructor
    · rintro (h | h)
      · exact Or.inl h.symm
      · exact Or.inr h
    · rintro (h | h)
      · exact Or.inl h.symm
      · exact Or.inr h

theorem containsCh_false (c : Char) (l : List Char) :
    containsCh c l = false ↔ c ∉ l := by
  rw [← containsCh_iff]
  cases containsCh c l <;> simp

theorem not_mem_of_digits {l : List Char} (hd : ∀ c ∈ l, isDigit c = true)
    {x : Char} (hx : isDigit x = false) : x ∉ l := fun hmem =>
  absurd (hd x hmem) (by simp [hx])

theorem splitCh_ne_nil (sep : Char) (l : List Char) : splitCh sep l ≠ [] := by
  cases l with
  | nil => simp [splitCh]
  | cons c rest =>
    simp only [splitCh]
    cases h : splitCh sep rest with
    | nil => simp
    | cons hd t => by_cases hc : c = sep <;> simp [hc]

theorem splitCh_cons (sep c : Char) (rest : List Char) :
    splitCh sep (c :: rest) =
      match splitCh sep rest with
      | [] => [[]]
      | h :: t => if c = sep then [] :: h :: t else (c :: h) :: t := rfl

theorem splitCh_no_sep (sep : Char) (l : List Char) (h : sep ∉ l) :
    splitCh sep l = [l] := by
  induction l with
  | nil => rfl
  | cons c rest ih =>
    have hc : ¬(c = sep) := fun he => h (by simp [he])
    have ih2 := ih (fun hm => h (by simp [hm]))
    rw [splitCh_cons, ih2]
    simp [hc]

theorem splitCh_cons_sep (sep : Char) (ys : List Char) :
    splitCh sep (sep :: ys) = [] :: splitCh sep ys := by
  rw [splitCh_cons]
  cases h : splitCh sep ys with
  | nil => exact absurd h (splitCh_ne_nil sep ys)
  | cons hd t => simp

theorem splitCh_append_sep (sep : Char) (xs ys : List Char) (h : sep ∉ xs) :
    splitCh sep (xs ++ sep :: ys) = xs :: splitCh sep ys := by
  induction xs with
  | nil => simpa using splitCh_cons_sep sep ys
  | cons c rest ih =>
    have hc : ¬(c = sep) := fun he => h (by simp [he])
    have ih2 := ih (fun hm => h (by simp [hm]))
    rw [List.cons_append, splitCh_cons, ih2]
    simp [hc]

theorem joinSep_cons2 (sep : Char) (p q : List Char) (t : List (List Char)) :
    joinSep sep (p :: q :: t) = p ++ sep :: joinSep sep (q :: t) := rfl

theorem splitCh_join (sep : Char) (l : List Char) :
    joinSep sep (splitCh sep l) = l := by
  induction l with
  | nil => rfl
  | cons c rest ih =>
    rw [splitCh_cons]
    cases h : splitCh sep rest with
    | nil => exact absurd h (splitCh_ne_nil sep rest)
    | cons hd t =>
      rw [h] at ih
      by_cases hc : c = sep
      · subst hc
        show joinSep c (if c = c then [] :: hd :: t else (c :: hd) :: t) = c :: rest
        rw [if_pos rfl, joinSep_cons2]
        simp [ih]
      · show joinSep sep (if c = sep then [] :: hd :: t else (c :: hd) :: t) =
          c :: rest
        rw [if_neg hc]
        cases t with
        | nil =>
          have ih2 : hd = rest := ih
          show c :: hd = c :: rest
          rw [ih2]
        | cons q t2 =>
          rw [joinSep_cons2] at ih ⊢
          rw [← ih]
          simp

theorem splitCh_parts (sep : Char) (l : List Char) :
    ∀ p ∈ splitCh sep l, sep ∉ p := by
  induction l with
  | nil =>
    intro p hp
    simp [splitCh] at hp
    subst hp
    simp
  | cons c rest ih =>
    intro p hp
    rw [splitCh_cons] at hp
    cases h : splitCh sep rest with
    | nil => exact absurd h (splitCh_ne_nil sep rest)
    | cons hd t =>
      rw [h] at hp
      have hp2 : p ∈ (if c = sep then [] :: hd :: t else (c :: hd) :: t) := hp
      by_cases hc : c = sep
      · rw [if_pos hc] at hp2
        rcases List.mem_cons.1 hp2 with hp3 | hp3
        · subst hp3; simp
        · exact ih p (by rw [h]; exact hp3)
      · rw [if_neg hc] at hp2
        rcases List.mem_cons.1 hp2 with hp3 | hp3
        · subst hp3
          intro hmem
          rcases List.mem_cons.1 hmem with hm | hm
          · exact hc hm.symm
          · exact ih hd (by rw [h]; simp) hm
        · exact ih p (by rw [h]; simp [hp3])

theorem splitCh_pair (sep : Char) (l p1 p2 : List Char)
    (h : splitCh sep l = [p1, p2]) :
    l = p1 ++ sep :: p2 ∧ sep ∉ p1 ∧ sep ∉ p2 := by
  have hj := splitCh_join sep l
  rw [h] at hj
  refine ⟨?_, ?_, ?_⟩
  · rw [← hj]; rfl
  · exact splitCh_parts sep l p1 (by rw [h]; simp)
  · exact splitCh_parts sep l p2 (by rw [h]; simp)

theorem dropWhile_no (p : Char → Bool) (l : List Char)
    (h : ∀ c ∈ l, p c = false) : l.dropWhile p = l := by
  cases l with
  | nil => rfl
  | cons c rest => simp [List.dropWhile_cons, h c (by simp)]

theorem trimSpace_no (l : List Char) (h : ∀ c ∈ l, isSpaceGo c = false) :
    trimSpace l = l := by
  unfold trimSpace
  rw [dropWhile_no _ _ h,
    dropWhile_no _ _ (fun c hc => h c (List.mem_reverse.1 hc))]
  exact List.reverse_reverse l

theorem mem_dropWhile (p : Char → Bool) (l : List Char) (c : Char)
    (hc : c ∈ l) (hp : p c = false) : c ∈ l.dropWhile p := by
  induction l with
  | nil => simp at hc
  | cons x rest ih =>
    rw [List.dropWhile_cons]
    by_cases hx : p x
    · rw [if_pos hx]
      rcases List.mem_cons.1 hc with h | h
      · subst h; rw [hp] at hx; cases hx
      · exact ih h
    · rw [if_neg hx]
      exact hc

theorem mem_trimSpace (l : List Char) (c : Char) (hc : c ∈ l)
    (hp : isSpaceGo c = false) : c ∈ trimSpace l := by
  unfold trimSpace
  rw [List.mem_reverse]
  refine mem_dropWhile _ _ _ ?_ hp
  rw [List.mem_reverse]
  exact mem_dropWhile _ _ _ hc hp

theorem mem_of_mem_trimSpace {l : List Char} {c : Char}
    (h : c ∈ trimSpace l) : c ∈ l := by
  unfold trimSpace at h
  rw [List.mem_reverse] at h
  have h2 : c ∈ (l.dropWhile isSpaceGo).reverse :=
    (List.dropWhile_sublist isSpaceGo).subset h
  rw [List.mem_reverse] at h2
  exact (List.dropWhile_sublist isSpaceGo).subset h2

theorem dropWhile_dropWhile (p : Char → Bool) (l : List Char) :
    (l.dropWhile p).dropWhile p = l.dropWhile p := by
  induction l with
  | nil => rfl
  | cons a t ih =>
    by_cases h : p a
    · simp only [List.dropWhile_cons, h, if_true]
      exact ih
    · simp [List.dropWhile_cons, h]

theorem head_dropWhile_false (p : Char → Bool) (l : List Char) (c : Char)
    (h : (l.dropWhile p).head? = some c) : p c = false := by
  induction l with
  | nil => cases h
  | cons a t ih =>
    by_cases hp : p a
    · rw [List.dropWhile_cons, if_pos hp] at h
      exact ih h
    · rw [List.dropWhile_cons, if_neg hp, List.head?_cons] at h
      have ha := Option.some.inj h
      subst ha
      exact Bool.eq_false_iff.mpr hp

theorem dropWhile_head_false {p : Char → Bool} {l : List Char} {c : Char}
    (h : l.head? = some c) (hc : p c = false) : l.dropWhile p = l := by
  cases l with
  | nil => rfl
  | cons a t =>
    rw [List.head?_cons] at h
    have ha := Option.some.inj h
    subst ha
    rw [List.dropWhile_cons, if_neg (by simp [hc])]

theorem getLast_dropWhile (p : Char → Bool) (l : List Char)
    (h : l.dropWhile p ≠ []) : (l.dropWhile p).getLast? = l.getLast? := by
  induction l with
  | nil => simp at h
  | cons a t ih =>
    by_cases hp : p a
    · rw [List.dropWhile_cons, if_pos hp] at h ⊢
      rw [ih h]
      cases t with
      | nil => simp at h
      | cons b t2 => rw [List.getLast?_cons_cons]
    · rw [List.dropWhile_cons, if_neg hp]

theorem trimSpace_idem (l : List Char) :
    trimSpace (trimSpace l) = trimSpace l := by
  have hdef : ∀ x : List Char, trimSpace x =
      ((x.dropWhile isSpaceGo).reverse.dropWhile isSpaceGo).reverse :=
    fun x => rfl
  have h1 : (trimSpace l).dropWhile isSpaceGo = trimSpace l := by
    cases hh : (trimSpace l).head? with
    | none =>
      rw [List.head?_eq_none_iff.1 hh]
      rfl
    | some c =>
      have hh0 := hh
      rw [hdef l, List.head?_reverse] at hh0
      have hBne : (l.dropWhile isSpaceGo).reverse.dropWhile isSpaceGo ≠ [] := by
        intro hB
        rw [hB] at hh0
        cases hh0
      rw [getLast_dropWhile _ _ hBne, List.getLast?_reverse] at hh0
      exact dropWhile_head_false hh (head_dropWhile_false _ _ _ hh0)
  have h2 : (trimSpace l).reverse.dropWhile isSpaceGo = (trimSpace l).reverse := by
    rw [hdef l, List.reverse_reverse]
    exact dropWhile_dropWhile _ _
  rw [hdef (trimSpace l), h1, h2, List.reverse_reverse]

/-! ## Lemmas: the counter loops of the hyphen ranges -/

theorem wrapInt64_eq {x : Int} (h1 : -(2 ^ 63) ≤ x) (h2 : x < 2 ^ 63) :
    wrapInt64 x = x := by
  unfold wrapInt64
  rw [Int.emod_eq_of_lt (by omega) (by omega)]
  omega

theorem idLoop_gt (fuel : Nat) (i e : Int) (acc : List Int) (hf : 1 ≤ fuel)
    (h : e < i) : idLoop fuel i e acc = some acc := by
  cases fuel with
  | zero => omega
  | succ f => simp [idLoop, show ¬(i ≤ e) by omega]

theorem map_range_succ_shift {α : Type} (g : Nat → α) (n : Nat) :
    (List.range (n + 1)).map g = g 0 :: (List.range n).map (fun j => g (j + 1)) := by
  rw [List.range_succ_eq_map, List.map_cons, List.map_map]
  rfl

theorem idLoop_run (e : Int) (he : e < 2 ^ 63 - 1) :
    ∀ (d fuel : Nat) (i : Int) (acc : List Int),
      i = e - d → -(2 ^ 63) ≤ i → d + 2 ≤ fuel →
      idLoop fuel i e acc =
        some (acc ++ (List.range (d + 1)).map (fun j : Nat => i + (j : Int))) := by
  intro d
  induction d with
  | zero =>
    intro fuel i acc hi hlo hf
    have hie : i = e := by omega
    obtain ⟨f, rfl⟩ : ∃ f, fuel = f + 1 := ⟨fuel - 1, by omega⟩
    simp only [idLoop, if_pos (by omega : i ≤ e)]
    rw [wrapInt64_eq (by omega) (by omega),
      idLoop_gt _ _ _ _ (by omega) (by omega)]
    rw [List.range_succ]
    simp
  | succ d ih =>
    intro fuel i acc hi hlo hf
    obtain ⟨f, rfl⟩ : ∃ f, fuel = f + 1 := ⟨fuel - 1, by omega⟩
    have hie : i ≤ e := by omega
    simp only [idLoop, if_pos hie]
    rw [wrapInt64_eq (by omega) (by omega),
      ih f (i + 1) (acc ++ [i]) (by push_cast at hi; omega) (by omega)
        (by omega)]
    rw [map_range_succ_shift (fun j : Nat => i + (j : Int)) (d + 1)]
    have hfe : (fun j : Nat => i + ((j + 1 : Nat) : Int)) =
        fun j : Nat => i + 1 + (j : Int) := by
      funext j
      push_cast
      ring
    simp [hfe]
    intro a _
    ring

theorem genLoop_gt (fuel i e : Nat) (acc : List (List Char)) (hf : 1 ≤ fuel)
    (h : e < i) : genLoop fuel i e acc = some acc := by
  cases fuel with
  | zero => omega
  | succ f => simp [genLoop, show ¬(i ≤ e) by omega]

theorem genLoop_run (e : Nat) (he : e < 2 ^ 32 - 1) :
    ∀ (d fuel i : Nat) (acc : List (List Char)),
      i + d = e → d + 2 ≤ fuel →
      genLoop fuel i e acc =
        some (acc ++ (List.range (d + 1)).map (fun j => intToIPv4 (i + j))) := by
  intro d
  induction d with
  | zero =>
    intro fuel i acc hi hf
    obtain ⟨f, rfl⟩ : ∃ f, fuel = f + 1 := ⟨fuel - 1, by omega⟩
    simp only [genLoop, if_pos (by omega : i ≤ e)]
    rw [Nat.mod_eq_of_lt (by omega), genLoop_gt _ _ _ _ (by omega) (by omega)]
    rw [List.range_succ]
    simp
  | succ d ih =>
    intro fuel i acc hi hf
    obtain ⟨f, rfl⟩ : ∃ f, fuel = f + 1 := ⟨fuel - 1, by omega⟩
    simp only [genLoop, if_pos (by omega : i ≤ e)]
    rw [Nat.mod_eq_of_lt (by omega),
      ih f (i + 1) (acc ++ [intToIPv4 i]) (by omega) (by omega)]
    rw [map_range_succ_shift (fun j => intToIPv4 (i + j)) (d + 1)]
    have hfe : (fun j => intToIPv4 (i + (j + 1))) = fun j => intToIPv4 (i + 1 + j) := by
      funext j
      congr 1
      omega
    simp [hfe]

theorem genLoop_div : ∀ (fuel i : Nat) (acc : List (List Char)), i < 2 ^ 32 →
    genLoop fuel i (2 ^ 32 - 1) acc = none := by
  intro fuel
  induction fuel with
  | zero =>
    intro i acc _
    rfl
  | succ f ih =>
    intro i acc h
    simp only [genLoop, if_pos (by omega : i ≤ 2 ^ 32 - 1)]
    exact ih _ _ (Nat.mod_lt _ (by norm_num))

/-! ## Lemmas: IPv4 octets -/

theorem and255_eq_mod (x : Nat) : x &&& 255 = x % 256 := by
  have h := Nat.and_pow_two_sub_one_eq_mod x 8
  norm_num at h
  exact h

theorem digit_not_space {c : Char} (h : isDigit c = true) : isSpaceGo c = false := by
  by_contra hs
  rw [Bool.not_eq_false] at hs
  simp only [isSpaceGo, Bool.or_eq_true, decide_eq_true_eq] at hs
  rcases hs with (((((((h1 | h1) | h1) | h1) | h1) | h1) | h1) | h1) <;>
    subst h1 <;> exact absurd h (by decide)

theorem octetOK_natRepr (o : Nat) (ho : o ≤ 255) : octetOK (natRepr o) = true := by
  unfold octetOK
  rw [atoi_natRepr (show o ≤ int64Max by unfold int64Max; omega)]
  have hb1 : ¬((o : Int) < 0) := by omega
  have hb2 : ¬((o : Int) > 255) := by omega
  have h2 : ((natRepr o).head? = some '0' && (natRepr o).length > 1) = false := by
    by_contra hx
    rw [Bool.not_eq_false] at hx
    simp only [Bool.and_eq_true, decide_eq_true_eq] at hx
    exact natRepr_no_leading_zero o ⟨hx.1, hx.2⟩
  simp [hb1, hb2, h2]

theorem intToIPv4_chars (a : Nat) :
    ∀ c ∈ intToIPv4 a, isDigit c = true ∨ c = '.' := by
  intro c hc
  unfold intToIPv4 at hc
  simp only [List.mem_append, List.mem_cons] at hc
  rcases hc with h | h | h | h | h | h | h
  · exact Or.inl (natRepr_digits _ c h)
  · exact Or.inr h
  · exact Or.inl (natRepr_digits _ c h)
  · exact Or.inr h
  · exact Or.inl (natRepr_digits _ c h)
  · exact Or.inr h
  · exact Or.inl (natRepr_digits _ c h)

theorem not_colon_intToIPv4 (a : Nat) : ':' ∉ intToIPv4 a := fun h => by
  rcases intToIPv4_chars a ':' h with h2 | h2
  · exact absurd h2 (by decide)
  · exact absurd h2 (by decide)

theorem not_hyphen_intToIPv4 (a : Nat) : '-' ∉ intToIPv4 a := fun h => by
  rcases intToIPv4_chars a '-' h with h2 | h2
  · exact absurd h2 (by decide)
  · exact absurd h2 (by decide)

theorem intToIPv4_not_space (a : Nat) :
    ∀ c ∈ intToIPv4 a, isSpaceGo c = false := by
  intro c hc
  rcases intToIPv4_chars a c hc with h | h
  · exact digit_not_space h
  · subst h; decide

theorem splitCh_intToIPv4 (a : Nat) :
    splitCh '.' (intToIPv4 a) =
      [natRepr ((a >>> 24) &&& 255), natRepr ((a >>> 16) &&& 255),
       natRepr ((a >>> 8) &&& 255), natRepr (a &&& 255)] := by
  have hnd : ∀ x : Nat, '.' ∉ natRepr x := fun x =>
    not_mem_of_digits (natRepr_digits x) (by decide)
  unfold intToIPv4
  rw [splitCh_append_sep _ _ _ (hnd _), splitCh_append_sep _ _ _ (hnd _),
    splitCh_append_sep _ _ _ (hnd _), splitCh_no_sep _ _ (hnd _)]

theorem isIPv4_intToIPv4 (a : Nat) : isIPv4 (intToIPv4 a) = true := by
  unfold isIPv4
  rw [splitCh_intToIPv4]
  have h255 : ∀ x : Nat, x &&& 255 ≤ 255 := fun x => by
    rw [and255_eq_mod]
    omega
  simp [octetOK_natRepr _ (h255 (a >>> 24)), octetOK_natRepr _ (h255 (a >>> 16)),
    octetOK_natRepr _ (h255 (a >>> 8)), octetOK_natRepr _ (h255 a)]

theorem isIPv6_intToIPv4 (a : Nat) : isIPv6 (intToIPv4 a) = false := by
  unfold isIPv6
  rw [(containsCh_false _ _).2 (not_colon_intToIPv4 a)]
  simp

theorem ipv4Step_eq (res o : Nat) (ho : o ≤ 255) (hres : res < 2 ^ 24) :
    ipv4Step res (natRepr o) = res * 256 + o := by
  unfold ipv4Step
  rw [atoi_natRepr (show o ≤ int64Max by unfold int64Max; omega)]
  simp only [Option.getD_some]
  unfold toUInt32n
  rw [Int.emod_eq_of_lt (by omega) (by omega)]
  rw [Nat.mod_eq_of_lt (by omega)]
  have h2 : res * 256 ||| o = res * 256 + o := by
    have h := (Nat.mul_add_lt_is_or (show o < 2 ^ 8 by omega) res).symm
    rw [show (256 : Nat) = 2 ^ 8 from rfl, mul_comm]
    exact h
  rw [show ((o : Int).toNat = o) from Int.toNat_natCast o, h2]

theorem ipv4ToInt_intToIPv4 {a : Nat} (ha : a < 2 ^ 32) :
    ipv4ToInt (intToIPv4 a) = a := by
  unfold ipv4ToInt
  rw [splitCh_intToIPv4]
  simp only [List.getD_cons_zero, List.getD_cons_succ, and255_eq_mod,
    Nat.shiftRight_eq_div_pow]
  rw [ipv4Step_eq 0 (a / 2 ^ 24 % 256) (by omega) (by omega)]
  rw [ipv4Step_eq (0 * 256 + a / 2 ^ 24 % 256) (a / 2 ^ 16 % 256)
    (by omega) (by omega)]
  rw [ipv4Step_eq ((0 * 256 + a / 2 ^ 24 % 256) * 256 + a / 2 ^ 16 % 256)
    (a / 2 ^ 8 % 256) (by omega) (by omega)]
  rw [ipv4Step_eq _ (a % 256) (by omega) (by omega)]
  omega

theorem mem_joinSep {sep : Char} {parts : List (List Char)} {c : Char}
    (h : c ∈ joinSep sep parts) : c = sep ∨ ∃ p ∈ parts, c ∈ p := by
  induction parts with
  | nil => simp [joinSep] at h
  | cons p t ih =>
    cases t with
    | nil => exact Or.inr ⟨p, by simp, h⟩
    | cons q t2 =>
      rw [joinSep_cons2] at h
      rcases List.mem_append.1 h with h2 | h2
      · exact Or.inr ⟨p, by simp, h2⟩
      · rcases List.mem_cons.1 h2 with h3 | h3
        · exact Or.inl h3
        · rcases ih h3 with h4 | ⟨r, hr, hcr⟩
          · exact Or.inl h4
          · exact Or.inr ⟨r, by simp [hr], hcr⟩

theorem atoi_cons (c : Char) (rest : List Char) :
    atoi (c :: rest) =
      if c = '+' then
        match rest, parseDigitsAux 0 rest with
        | _ :: _, some n => if n ≤ int64Max then some (n : Int) else none
        | _, _ => none
      else if c = '-' then
        match rest, parseDigitsAux 0 rest with
        | _ :: _, some n => if n ≤ 2 ^ 63 then some (-(n : Int)) else none
        | _, _ => none
      else
        match parseDigitsAux 0 (c :: rest) with
        | some n => if n ≤ int64Max then some (n : Int) else none
        | none => none := rfl

theorem atoi_none_of_bad {l : List Char} {x : Char} (hx : x ∈ l)
    (hd : isDigit x = false) (hp : x ≠ '+') (hm : x ≠ '-') : atoi l = none := by
  cases l with
  | nil => rfl
  | cons c rest =>
    rw [atoi_cons]
    by_cases hcp : c = '+'
    · subst hcp
      have hxr : x ∈ rest := by
        rcases List.mem_cons.1 hx with h | h
        · exact absurd h hp
        · exact h
      have hnone : parseDigitsAux 0 rest = none := by
        cases hpd : parseDigitsAux 0 rest with
        | none => rfl
        | some v =>
          exact absurd (parseDigitsAux_digits rest 0 v hpd x hxr) (by simp [hd])
      rw [if_pos rfl]
      cases rest <;> simp [hnone] at hxr ⊢
    · by_cases hcm : c = '-'
      · subst hcm
        have hxr : x ∈ rest := by
          rcases List.mem_cons.1 hx with h | h
          · exact absurd h hm
          · exact h
        have hnone : parseDigitsAux 0 rest = none := by
          cases hpd : parseDigitsAux 0 rest with
          | none => rfl
          | some v =>
            exact absurd (parseDigitsAux_digits rest 0 v hpd x hxr) (by simp [hd])
        rw [if_neg hcp, if_pos rfl]
        cases rest <;> simp [hnone] at hxr ⊢
      · have hnone : parseDigitsAux 0 (c :: rest) = none := by
          cases hpd : parseDigitsAux 0 (c :: rest) with
          | none => rfl
          | some v =>
            exact absurd (parseDigitsAux_digits _ 0 v hpd x hx) (by simp [hd])
        rw [if_neg hcp, if_neg hcm, hnone]

theorem isIPv4_colon {l : List Char} (h : ':' ∈ l) : isIPv4 l = false := by
  unfold isIPv4
  by_cases hlen : (splitCh '.' l).length ≠ 4
  · simp [hlen]
  · have hjoin := splitCh_join '.' l
    have hex : ∃ p ∈ splitCh '.' l, ':' ∈ p := by
      rw [← hjoin] at h
      rcases mem_joinSep h with h2 | h2
      · exact absurd h2 (by decide)
      · exact h2
    obtain ⟨p, hp, hcp⟩ := hex
    have hpF : octetOK p = false := by
      unfold octetOK
      rw [atoi_none_of_bad hcp (by decide) (by decide) (by decide)]
    simp only [hlen, if_false]
    rw [List.all_eq_false]
    exact ⟨p, hp, by simp [hpF]⟩

/-! ## Lemmas: ParseIDRange on canonical inputs -/

theorem atoi_natRepr_big {n : Nat} (h : int64Max < n) : atoi (natRepr n) = none := by
  obtain ⟨c, rest, hcr⟩ := List.exists_cons_of_ne_nil (natRepr_ne_nil n)
  have hcd : isDigit c = true := natRepr_digits n c (by rw [hcr]; simp)
  have hplus : ¬(c = '+') := fun he => absurd hcd (by subst he; decide)
  have hminus : ¬(c = '-') := fun he => absurd hcd (by subst he; decide)
  have hp := parseDigitsAux_natRepr n 0
  rw [hcr] at hp
  simp only [zero_mul, zero_add] at hp
  rw [hcr]
  simp [atoi, hplus, hminus, hp, show ¬(n ≤ int64Max) by omega]

theorem natRepr_trim (n : Nat) : trimSpace (natRepr n) = natRepr n :=
  trimSpace_no _ (fun c hc => digit_not_space (natRepr_digits n c hc))

theorem ParseIDRange_hyphen_ok (a b : Nat) (hab : a ≤ b) (hb : b < 2 ^ 63 - 1) :
    ParseIDRange (natRepr a ++ '-' :: natRepr b) =
      some (.ok ((List.range (b - a + 1)).map (fun j : Nat => (a : Int) + (j : Int)))) := by
  have hchars : ∀ c ∈ natRepr a ++ '-' :: natRepr b, isSpaceGo c = false := by
    intro c hc
    rcases List.mem_append.1 hc with h | h
    · exact digit_not_space (natRepr_digits a c h)
    · rcases List.mem_cons.1 h with h2 | h2
      · subst h2; decide
      · exact digit_not_space (natRepr_digits b c h2)
  have hnda : '-' ∉ natRepr a := not_mem_of_digits (natRepr_digits a) (by decide)
  have hndb : '-' ∉ natRepr b := not_mem_of_digits (natRepr_digits b) (by decide)
  have hsplit : splitCh '-' (natRepr a ++ '-' :: natRepr b) =
      [natRepr a, natRepr b] := by
    rw [splitCh_append_sep _ _ _ hnda, splitCh_no_sep _ _ hndb]
  have hct : containsCh '-' (natRepr a ++ '-' :: natRepr b) = true :=
    (containsCh_iff _ _).2 (by simp)
  have hne : ¬(natRepr a ++ '-' :: natRepr b = []) := by simp
  have hgt : ¬((a : Int) > (b : Int)) := by omega
  have hrun := idLoop_run (b : Int) (by omega) (b - a) idFuel (a : Int) []
    (by omega) (by omega) (by unfold idFuel; omega)
  have hres : ¬((List.range (b - a + 1)).map
      (fun j : Nat => (a : Int) + (j : Int)) = []) := by simp
  simp only [ParseIDRange, trimSpace_no _ hchars, hsplit, natRepr_trim,
    atoi_natRepr (show a ≤ int64Max by unfold int64Max; omega),
    atoi_natRepr (show b ≤ int64Max by unfold int64Max; omega),
    hct, hne, hgt, hrun, List.nil_append, hres, if_true, if_false,
    ite_false, ite_true]

theorem ParseIDRange_hyphen_rev (a b : Nat) (hba : b < a) :
    ParseIDRange (natRepr a ++ '-' :: natRepr b) =
      some (.error .invalidRange) := by
  have hchars : ∀ c ∈ natRepr a ++ '-' :: natRepr b, isSpaceGo c = false := by
    intro c hc
    rcases List.mem_append.1 hc with h | h
    · exact digit_not_space (natRepr_digits a c h)
    · rcases List.mem_cons.1 h with h2 | h2
      · subst h2; decide
      · exact digit_not_space (natRepr_digits b c h2)
  have hnda : '-' ∉ natRepr a := not_mem_of_digits (natRepr_digits a) (by decide)
  have hndb : '-' ∉ natRepr b := not_mem_of_digits (natRepr_digits b) (by decide)
  have hsplit : splitCh '-' (natRepr a ++ '-' :: natRepr b) =
      [natRepr a, natRepr b] := by
    rw [splitCh_append_sep _ _ _ hnda, splitCh_no_sep _ _ hndb]
  have hct : containsCh '-' (natRepr a ++ '-' :: natRepr b) = true :=
    (containsCh_iff _ _).2 (by simp)
  have hne : ¬(natRepr a ++ '-' :: natRepr b = []) := by simp
  by_cases ha : a ≤ int64Max
  · have hgt : (a : Int) > (b : Int) := by omega
    simp only [ParseIDRange, trimSpace_no _ hchars, hsplit, natRepr_trim,
      atoi_natRepr ha, atoi_natRepr (show b ≤ int64Max by omega),
      hct, hne, hgt, if_true, if_false, ite_false, ite_true]
  · simp only [ParseIDRange, trimSpace_no _ hchars, hsplit, natRepr_trim,
      atoi_natRepr_big (show int64Max < a by omega),
      hct, hne, if_true, if_false, ite_false, ite_true]

theorem ParseIDRange_single (n : Nat) (h : n ≤ int64Max) :
    ParseIDRange (natRepr n) = some (.ok [(n : Int)]) := by
  have hnd : '-' ∉ natRepr n := not_mem_of_digits (natRepr_digits n) (by decide)
  have hcomma : ',' ∉ natRepr n := not_mem_of_digits (natRepr_digits n) (by decide)
  have hctF : containsCh '-' (natRepr n) = false := (containsCh_false _ _).2 hnd
  have hsplit : splitCh ',' (natRepr n) = [natRepr n] := splitCh_no_sep _ _ hcomma
  have hne : ¬(natRepr n = []) := natRepr_ne_nil n
  have hmem : idMembers [natRepr n] = .ok [(n : Int)] := by
    simp only [idMembers, natRepr_trim, hne, atoi_natRepr h, if_false, ite_false]
  simp only [ParseIDRange, trimSpace_no _
      (fun c hc => digit_not_space (natRepr_digits n c hc)),
    hctF, hsplit, hmem, hne, if_false, ite_false, Bool.false_eq_true]
  simp

theorem ParseIDRange_neg (n : Nat) :
    ParseIDRange ('-' :: natRepr n) = some (.error .invalidRange) := by
  have hchars : ∀ c ∈ '-' :: natRepr n, isSpaceGo c = false := by
    intro c hc
    rcases List.mem_cons.1 hc with h | h
    · subst h; decide
    · exact digit_not_space (natRepr_digits n c h)
  have hnd : '-' ∉ natRepr n := not_mem_of_digits (natRepr_digits n) (by decide)
  have hsplit : splitCh '-' ('-' :: natRepr n) = [[], natRepr n] := by
    rw [splitCh_cons_sep, splitCh_no_sep _ _ hnd]
  have hct : containsCh '-' ('-' :: natRepr n) = true :=
    (containsCh_iff _ _).2 (by simp)
  have hne : ¬(('-' :: natRepr n : List Char) = []) := by simp
  have hatoi : atoi (trimSpace ([] : List Char)) = none := rfl
  simp only [ParseIDRange, trimSpace_no _ hchars, hsplit, hct, hne, hatoi,
    if_true, if_false, ite_false, ite_true]

/-! ## Lemmas: ParseIPRange on canonical inputs -/

theorem itoa_ofNat (n : Nat) : itoa (n : Nat) = natRepr n := by
  unfold itoa
  rw [if_neg (by omega)]
  simp

theorem intToIPv4_trim (a : Nat) : trimSpace (intToIPv4 a) = intToIPv4 a :=
  trimSpace_no _ (intToIPv4_not_space a)

theorem isValidIP_intToIPv4 (a : Nat) : isValidIP (intToIPv4 a) = true := by
  unfold isValidIP
  rw [isIPv4_intToIPv4]
  rfl

theorem hyphen_ip_chars (a b : Nat) :
    ∀ c ∈ intToIPv4 a ++ '-' :: intToIPv4 b, isSpaceGo c = false := by
  intro c hc
  rcases List.mem_append.1 hc with h | h
  · exact intToIPv4_not_space a c h
  · rcases List.mem_cons.1 h with h2 | h2
    · subst h2; decide
    · exact intToIPv4_not_space b c h2

theorem hyphen_ip_split (a b : Nat) :
    splitCh '-' (intToIPv4 a ++ '-' :: intToIPv4 b) =
      [intToIPv4 a, intToIPv4 b] := by
  rw [splitCh_append_sep _ _ _ (not_hyphen_intToIPv4 a),
    splitCh_no_sep _ _ (not_hyphen_intToIPv4 b)]

theorem ParseIPRange_hyphen_ok (a b : Nat) (hab : a ≤ b) (ha : a < 2 ^ 32)
    (hb : b < 2 ^ 32 - 1) :
    ParseIPRange (intToIPv4 a ++ '-' :: intToIPv4 b) =
      some (.ok ((List.range (b - a + 1)).map (fun j => intToIPv4 (a + j)))) := by
  have hct : containsCh '-' (intToIPv4 a ++ '-' :: intToIPv4 b) = true :=
    (containsCh_iff _ _).2 (by simp)
  have hne : ¬(intToIPv4 a ++ '-' :: intToIPv4 b = []) := by simp
  have hgen : generateIPRange (intToIPv4 a) (intToIPv4 b) =
      some (.ok ((List.range (b - a + 1)).map (fun j => intToIPv4 (a + j)))) := by
    unfold generateIPRange
    rw [ipv4ToInt_intToIPv4 ha, ipv4ToInt_intToIPv4 (show b < 2 ^ 32 by omega),
      if_neg (by omega),
      genLoop_run b hb (b - a) genFuel a [] (by omega) (by unfold genFuel; omega)]
    rfl
  have hres : ¬((List.range (b - a + 1)).map (fun j => intToIPv4 (a + j)) = []) := by
    simp
  simp only [ParseIPRange, trimSpace_no _ (hyphen_ip_chars a b),
    hyphen_ip_split, intToIPv4_trim, isValidIP_intToIPv4, isIPv6_intToIPv4,
    hct, hne, hgen, hres, Bool.not_true, Bool.or_self, Bool.or_false,
    Bool.false_eq_true, if_true, if_false, ite_false, ite_true]

theorem ParseIPRange_hyphen_rev (a b : Nat) (hba : b < a) (ha : a < 2 ^ 32)
    (hb : b < 2 ^ 32) :
    ParseIPRange (intToIPv4 a ++ '-' :: intToIPv4 b) =
      some (.error .invalidRange) := by
  have hct : containsCh '-' (intToIPv4 a ++ '-' :: intToIPv4 b) = true :=
    (containsCh_iff _ _).2 (by simp)
  have hne : ¬(intToIPv4 a ++ '-' :: intToIPv4 b = []) := by simp
  have hgen : generateIPRange (intToIPv4 a) (intToIPv4 b) =
      some (.error .invalidRange) := by
    unfold generateIPRange
    rw [ipv4ToInt_intToIPv4 ha, ipv4ToInt_intToIPv4 hb, if_pos (by omega)]
  simp only [ParseIPRange, trimSpace_no _ (hyphen_ip_chars a b),
    hyphen_ip_split, intToIPv4_trim, isValidIP_intToIPv4, isIPv6_intToIPv4,
    hct, hne, hgen, Bool.not_true, Bool.or_self, Bool.or_false,
    Bool.false_eq_true, if_true, if_false, ite_false, ite_true]

theorem ParseIPRange_hyphen_max (a : Nat) (ha : a < 2 ^ 32) :
    ParseIPRange (intToIPv4 a ++ '-' :: intToIPv4 (2 ^ 32 - 1)) = none := by
  have hct : containsCh '-' (intToIPv4 a ++ '-' :: intToIPv4 (2 ^ 32 - 1)) = true :=
    (containsCh_iff _ _).2 (by simp)
  have hne : ¬(intToIPv4 a ++ '-' :: intToIPv4 (2 ^ 32 - 1) = []) := by simp
  have hgen : generateIPRange (intToIPv4 a) (intToIPv4 (2 ^ 32 - 1)) = none := by
    unfold generateIPRange
    rw [ipv4ToInt_intToIPv4 ha, ipv4ToInt_intToIPv4 (by omega),
      if_neg (by omega), genLoop_div genFuel a [] ha]
  simp only [ParseIPRange, trimSpace_no _ (hyphen_ip_chars a (2 ^ 32 - 1)),
    hyphen_ip_split, intToIPv4_trim, isValidIP_intToIPv4, isIPv6_intToIPv4,
    hct, hne, hgen, Bool.not_true, Bool.or_self, Bool.or_false,
    Bool.false_eq_true, if_true, if_false, ite_false, ite_true]

/-! ## Lemmas: the octet acceptance of isIPv4 -/

theorem atoi_plus {digits : List Char} (hne : digits ≠ [])
    (hd : ∀ c ∈ digits, isDigit c = true) (hb : decimalVal digits ≤ int64Max) :
    atoi ('+' :: digits) = some ((decimalVal digits : Nat) : Int) := by
  rw [atoi_cons, if_pos rfl]
  obtain ⟨r, rs, rfl⟩ := List.exists_cons_of_ne_nil hne
  have hpd := parseDigitsAux_of_digits hd 0
  simp only [hpd]
  have hb2 : dvAux 0 (r :: rs) ≤ int64Max := hb
  simp [hb2, decimalVal]

theorem atoi_minus {digits : List Char} (hne : digits ≠ [])
    (hd : ∀ c ∈ digits, isDigit c = true) (hb : decimalVal digits ≤ 2 ^ 63) :
    atoi ('-' :: digits) = some (-((decimalVal digits : Nat) : Int)) := by
  rw [atoi_cons, if_neg (by decide), if_pos rfl]
  obtain ⟨r, rs, rfl⟩ := List.exists_cons_of_ne_nil hne
  have hpd := parseDigitsAux_of_digits hd 0
  simp only [hpd]
  have hb2 : dvAux 0 (r :: rs) ≤ 9223372036854775808 := hb
  simp [hb2, decimalVal]

theorem atoi_digits_only {p : List Char} (hne : p ≠ [])
    (hd : ∀ c ∈ p, isDigit c = true) (hb : decimalVal p ≤ int64Max) :
    atoi p = some ((decimalVal p : Nat) : Int) := by
  obtain ⟨c, rest, rfl⟩ := List.exists_cons_of_ne_nil hne
  have hcd : isDigit c = true := hd c (by simp)
  have hplus : ¬(c = '+') := fun he => absurd hcd (by subst he; decide)
  have hminus : ¬(c = '-') := fun he => absurd hcd (by subst he; decide)
  rw [atoi_cons, if_neg hplus, if_neg hminus]
  have hpd := parseDigitsAux_of_digits hd 0
  simp only [hpd]
  have hb2 : dvAux 0 (c :: rest) ≤ int64Max := hb
  simp [hb2, decimalVal]

theorem atoi_some_cases {p : List Char} {num : Int} (h : atoi p = some num) :
    (∃ digits, p = '+' :: digits ∧ digits ≠ [] ∧
      (∀ c ∈ digits, isDigit c = true) ∧ decimalVal digits ≤ int64Max ∧
      num = (decimalVal digits : Nat)) ∨
    (∃ digits, p = '-' :: digits ∧ digits ≠ [] ∧
      (∀ c ∈ digits, isDigit c = true) ∧ decimalVal digits ≤ 2 ^ 63 ∧
      num = -((decimalVal digits : Nat) : Int)) ∨
    (p ≠ [] ∧ (∀ c ∈ p, isDigit c = true) ∧ decimalVal p ≤ int64Max ∧
      num = (decimalVal p : Nat)) := by
  cases p with
  | nil => cases h
  | cons c rest =>
    rw [atoi_cons] at h
    by_cases hcp : c = '+'
    · subst hcp
      rw [if_pos rfl] at h
      cases rest with
      | nil => cases h
      | cons r rs =>
        cases hpd : parseDigitsAux 0 (r :: rs) with
        | none => rw [hpd] at h; cases h
        | some n =>
          rw [hpd] at h
          have h2 : (if n ≤ int64Max then some (n : Int) else none) = some num := h
          have hdg := parseDigitsAux_digits _ _ _ hpd
          have hval := parseDigitsAux_of_digits hdg 0
          rw [hpd] at hval
          have hn : n = decimalVal (r :: rs) := by
            have := Option.some.inj hval
            simp [decimalVal, this]
          by_cases hbd : n ≤ int64Max
          · rw [if_pos hbd] at h2
            refine Or.inl ⟨r :: rs, rfl, by simp, hdg, by omega, ?_⟩
            rw [← hn]
            exact (Option.some.inj h2).symm
          · rw [if_neg hbd] at h2
            cases h2
    · by_cases hcm : c = '-'
      · subst hcm
        rw [if_neg hcp, if_pos rfl] at h
        cases rest with
        | nil => cases h
        | cons r rs =>
          cases hpd : parseDigitsAux 0 (r :: rs) with
          | none => rw [hpd] at h; cases h
          | some n =>
            rw [hpd] at h
            have h2 : (if n ≤ 2 ^ 63 then some (-(n : Int)) else none) = some num := h
            have hdg := parseDigitsAux_digits _ _ _ hpd
            have hval := parseDigitsAux_of_digits hdg 0
            rw [hpd] at hval
            have hn : n = decimalVal (r :: rs) := by
              have := Option.some.inj hval
              simp [decimalVal, this]
            by_cases hbd : n ≤ 2 ^ 63
            · rw [if_pos hbd] at h2
              refine Or.inr (Or.inl ⟨r :: rs, rfl, by simp, hdg, by omega, ?_⟩)
              rw [← hn]
              exact (Option.some.inj h2).symm
            · rw [if_neg hbd] at h2
              cases h2
      · rw [if_neg hcp, if_neg hcm] at h
        cases hpd : parseDigitsAux 0 (c :: rest) with
        | none => rw [hpd] at h; cases h
        | some n =>
          rw [hpd] at h
          have h2 : (if n ≤ int64Max then some (n : Int) else none) = some num := h
          have hdg := parseDigitsAux_digits _ _ _ hpd
          have hval := parseDigitsAux_of_digits hdg 0
          rw [hpd] at hval
          have hn : n = decimalVal (c :: rest) := by
            have := Option.some.inj hval
            simp [decimalVal, this]
          by_cases hbd : n ≤ int64Max
          · rw [if_pos hbd] at h2
            refine Or.inr (Or.inr ⟨by simp, hdg, by omega, ?_⟩)
            rw [← hn]
            exact (Option.some.inj h2).symm
          · rw [if_neg hbd] at h2
            cases h2

theorem ite_ite_true {b1 b2 : Bool} {r : Bool}
    (h : (if b1 = true then false else if b2 = true then false else r) = true) :
    b1 = false ∧ b2 = false ∧ r = true := by
  by_cases h1 : b1 = true
  · rw [if_pos h1] at h
    cases h
  · by_cases h2 : b2 = true
    · rw [if_neg h1, if_pos h2] at h
      cases h
    · rw [if_neg h1, if_neg h2] at h
      exact ⟨by simpa using h1, by simpa using h2, h⟩

theorem octetOK_iff (p : List Char) : octetOK p = true ↔ octetSpec p := by
  constructor
  · intro h
    unfold octetOK at h
    cases hat : atoi p with
    | none => rw [hat] at h; cases h
    | some num =>
      rw [hat] at h
      obtain ⟨hc1, hc2, _⟩ := ite_ite_true h
      have hnum1 : ¬(num < 0) := by
        intro hx
        simp [hx] at hc1
      have hnum2 : ¬(num > 255) := by
        intro hx
        simp [hx] at hc1
      have hlead : ¬(p.head? = some '0' ∧ 1 < p.length) := by
        rintro ⟨hx, hy⟩
        simp [hx, hy] at hc2
      rcases atoi_some_cases hat with
        ⟨digits, rfl, hne, hdg, _, hval⟩ |
        ⟨digits, rfl, hne, hdg, _, hval⟩ |
        ⟨hne, hdg, _, hval⟩
      · refine ⟨['+'], digits, rfl, Or.inr (Or.inl rfl), hne, hdg, ?_, by simp, hlead⟩
        subst hval
        omega
      · refine ⟨['-'], digits, rfl, Or.inr (Or.inr rfl), hne, hdg, ?_, ?_, hlead⟩
        · subst hval
          omega
        · intro _
          subst hval
          omega
      · refine ⟨[], p, by simp, Or.inl rfl, hne, hdg, ?_, by simp, hlead⟩
        subst hval
        omega
  · rintro ⟨sign, digits, rfl, hsign, hne, hdg, hval, hneg, hlead⟩
    unfold octetOK
    rcases hsign with rfl | rfl | rfl
    · simp only [List.nil_append] at hlead ⊢
      rw [atoi_digits_only hne hdg (by unfold int64Max; omega)]
      have hb1 : ¬(((decimalVal digits : Nat) : Int) < 0) := by omega
      have hb2 : ¬(((decimalVal digits : Nat) : Int) > 255) := by omega
      have hb3 : (digits.head? = some '0' && digits.length > 1) = false := by
        by_contra hx
        rw [Bool.not_eq_false, Bool.and_eq_true] at hx
        exact hlead ⟨by simpa using hx.1, by simpa using hx.2⟩
      simp [hb1, hb2, hb3]
    · simp only [List.singleton_append] at hlead ⊢
      rw [atoi_plus hne hdg (by unfold int64Max; omega)]
      have hb1 : ¬(((decimalVal digits : Nat) : Int) < 0) := by omega
      have hb2 : ¬(((decimalVal digits : Nat) : Int) > 255) := by omega
      have hb3 : (('+' :: digits).head? = some '0' &&
          ('+' :: digits).length > 1) = false := by
        simp
      simp [hb1, hb2, hb3]
    · have hv0 := hneg rfl
      simp only [List.singleton_append] at hlead ⊢
      rw [atoi_minus hne hdg (by omega)]
      rw [hv0]
      have hb3 : (('-' :: digits).head? = some '0' &&
          ('-' :: digits).length > 1) = false := by
        simp
      simp [hb3]

theorem list_len4 {α : Type} (l : List α) (hl : l.length = 4) :
    ∃ a b c d, l = [a, b, c, d] := by
  rcases l with _ | ⟨a, _ | ⟨b, _ | ⟨c, _ | ⟨d, _ | ⟨e, t⟩⟩⟩⟩⟩
  · simp at hl
  · simp at hl
  · simp at hl
  · simp at hl
  · exact ⟨a, b, c, d, rfl⟩
  · simp at hl

/-! ## Claim C8 -/

/-- C8: for a hyphen spec with A at most B, the ID range enumerates the
integers from A to B and the constructed Range carries their decimal
strings in ascending order; the IPv4 range enumerates every address
obtained by 32-bit iteration from A to B; A above B fails with
InvalidRange.  At the upper boundary the uint32 counter wraps, so a range
ending at the all-ones address never terminates: the loop returns none for
every fuel, exhibited on the concrete input ending at 255.255.255.255. -/
theorem c8_hyphen_ranges :
    (∀ a b : Nat, a ≤ b → b < 2 ^ 63 - 1 →
      ParseIDRange (natRepr a ++ '-' :: natRepr b) =
        some (.ok ((List.range (b - a + 1)).map
          (fun j : Nat => (a : Int) + (j : Int))))) ∧
    (∀ a b : Nat, a ≤ b → b < 2 ^ 63 - 1 →
      NewIDRange (natRepr a ++ '-' :: natRepr b) =
        some (some (RangeV.mk .id
          ((List.range (b - a + 1)).map (fun j => natRepr (a + j)))))) ∧
    (∀ a b : Nat, b < a →
      ParseIDRange (natRepr a ++ '-' :: natRepr b) =
        some (.error .invalidRange)) ∧
    (∀ a b : Nat, a ≤ b → a < 2 ^ 32 → b < 2 ^ 32 - 1 →
      ParseIPRange (intToIPv4 a ++ '-' :: intToIPv4 b) =
        some (.ok ((List.range (b - a + 1)).map (fun j => intToIPv4 (a + j))))) ∧
    (∀ a b : Nat, b < a → a < 2 ^ 32 → b < 2 ^ 32 →
      ParseIPRange (intToIPv4 a ++ '-' :: intToIPv4 b) =
        some (.error .invalidRange)) ∧
    (∀ fuel i : Nat, ∀ acc : List (List Char), i < 2 ^ 32 →
      genLoop fuel i (2 ^ 32 - 1) acc = none) ∧
    ParseIPRange (String.toList "255.255.255.0-255.255.255.255") = none := by
  refine ⟨ParseIDRange_hyphen_ok, ?_, ParseIDRange_hyphen_rev,
    ParseIPRange_hyphen_ok, ParseIPRange_hyphen_rev, genLoop_div, ?_⟩
  · intro a b hab hb
    simp only [NewIDRange, ParseIDRange_hyphen_ok a b hab hb, List.map_map]
    have hmap : List.map (itoa ∘ fun j : Nat => (a : Int) + (j : Int))
        (List.range (b - a + 1)) =
        List.map (fun j => natRepr (a + j)) (List.range (b - a + 1)) := by
      refine List.map_congr_left ?_
      intro j _
      have hcast : (a : Int) + (j : Int) = ((a + j : Nat) : Int) := by push_cast; ring
      simp only [Function.comp_apply, hcast, itoa_ofNat]
    rw [hmap]
  · have h1 : String.toList "255.255.255.0-255.255.255.255" =
        intToIPv4 4294967040 ++ '-' :: intToIPv4 (2 ^ 32 - 1) := by decide
    rw [h1]
    exact ParseIPRange_hyphen_max 4294967040 (by norm_num)

/-- Witness for c8_hyphen_ranges: the ranges 1-5 and
192.168.1.254-192.168.2.1 from the spec examples. -/
theorem c8_hyphen_ranges_witness :
    ParseIDRange (natRepr 1 ++ '-' :: natRepr 5) =
      some (.ok ((List.range (5 - 1 + 1)).map
        (fun j : Nat => (1 : Int) + (j : Int)))) ∧
    ParseIPRange (intToIPv4 3232236030 ++ '-' :: intToIPv4 3232236033) =
      some (.ok ((List.range (3232236033 - 3232236030 + 1)).map
        (fun j => intToIPv4 (3232236030 + j)))) :=
  ⟨c8_hyphen_ranges.1 1 5 (by norm_num) (by norm_num),
   c8_hyphen_ranges.2.2.2.1 3232236030 3232236033 (by norm_num) (by norm_num)
     (by norm_num)⟩

/-! ## Claim C9 -/

/-- C9 counterexample: the input with a hyphen and colons whose endpoints
are not valid IPs fails with InvalidRange, not with the IPv6 error the
claim requires for every hyphen input containing a colon. -/
theorem c9_hyphen_colon_counterexample :
    ParseIPRange (String.toList ":-:") = some (.error .invalidRange) ∧
    ParseIPRange (String.toList ":-:") ≠ some (.error .ipv6RangeNotSupported) ∧
    containsCh '-' (String.toList ":-:") = true ∧
    containsCh ':' (String.toList ":-:") = true :=
  ⟨by decide, by decide, by decide, by decide⟩

/-- C9 (amended): a hyphen input that splits into exactly two endpoints
which are both valid IPs fails with IPv6RangeUnsupported whenever the input
contains a colon; if instead one endpoint is not a valid IP the input fails
with InvalidRange, because the validity check runs before the IPv6 check;
and a hyphen input whose split does not have exactly two parts fails with
InvalidRange as well, regardless of colons. -/
theorem c9_hyphen_ipv6_error (input0 : List Char) :
    (∀ p1 p2, splitCh '-' (trimSpace input0) = [p1, p2] →
      (isValidIP (trimSpace p1) = true → isValidIP (trimSpace p2) = true →
        containsCh ':' input0 = true →
        ParseIPRange input0 = some (.error .ipv6RangeNotSupported)) ∧
      (isValidIP (trimSpace p1) = false ∨ isValidIP (trimSpace p2) = false →
        ParseIPRange input0 = some (.error .invalidRange))) ∧
    (containsCh '-' (trimSpace input0) = true →
      (splitCh '-' (trimSpace input0)).length ≠ 2 →
      ParseIPRange input0 = some (.error .invalidRange)) := by
  refine ⟨?_, ?_⟩
  case _ =>
    intro p1 p2 hsplit
    obtain ⟨heq, hn1, hn2⟩ := splitCh_pair '-' (trimSpace input0) p1 p2 hsplit
    have hne : ¬(trimSpace input0 = []) := by rw [heq]; simp
    have hct : containsCh '-' (trimSpace input0) = true := by
      rw [heq]
      exact (containsCh_iff _ _).2 (by simp)
    constructor
    · intro hv1 hv2 hcolon
      have hmem : ':' ∈ trimSpace input0 :=
        mem_trimSpace _ _ ((containsCh_iff _ _).1 hcolon) (by decide)
      rw [heq] at hmem
      have hor : isIPv6 (trimSpace p1) = true ∨ isIPv6 (trimSpace p2) = true := by
        rcases List.mem_append.1 hmem with hm | hm
        · left
          have hm2 : ':' ∈ trimSpace p1 := mem_trimSpace _ _ hm (by decide)
          have h4 : isIPv4 (trimSpace p1) = false := isIPv4_colon hm2
          unfold isValidIP at hv1
          rw [h4] at hv1
          simpa using hv1
        · rcases List.mem_cons.1 hm with hm2 | hm2
          · exact absurd hm2 (by decide)
          · right
            have hm3 : ':' ∈ trimSpace p2 := mem_trimSpace _ _ hm2 (by decide)
            have h4 : isIPv4 (trimSpace p2) = false := isIPv4_colon hm3
            unfold isValidIP at hv2
            rw [h4] at hv2
            simpa using hv2
      have hcond6 : (isIPv6 (trimSpace p1) || isIPv6 (trimSpace p2)) = true := by
        rcases hor with h | h <;> simp [h]
      have hcondV : (!isValidIP (trimSpace p1) || !isValidIP (trimSpace p2)) =
          false := by
        rw [hv1, hv2]
        rfl
      simp only [ParseIPRange, hne, hct, hsplit, hcondV, hcond6,
        Bool.false_eq_true, if_true, if_false, ite_false, ite_true]
    · intro hv
      have hcondV : (!isValidIP (trimSpace p1) || !isValidIP (trimSpace p2)) =
          true := by
        rcases hv with h | h <;> simp [h]
      simp only [ParseIPRange, hne, hct, hsplit, hcondV,
        if_true, if_false, ite_false, ite_true]
  case _ =>
    intro hct hlen
    have hne : ¬(trimSpace input0 = []) := by
      intro h0
      rw [h0] at hct
      simp [containsCh] at hct
    rcases hsp : splitCh '-' (trimSpace input0) with _ | ⟨q1, _ | ⟨q2, _ | ⟨q3, rest⟩⟩⟩
    · exact absurd hsp (splitCh_ne_nil _ _)
    · simp only [ParseIPRange, hne, hct, hsp, if_true, if_false,
        ite_false, ite_true]
    · rw [hsp] at hlen
      simp at hlen
    · simp only [ParseIPRange, hne, hct, hsp, if_true, if_false,
        ite_false, ite_true]

/-- Witness for c9_hyphen_ipv6_error: a hyphen range between two valid IPv6
addresses is refused with the IPv6 error. -/
theorem c9_hyphen_ipv6_error_witness :
    ParseIPRange (String.toList "::1-::2") =
      some (.error .ipv6RangeNotSupported) := by
  have h := (c9_hyphen_ipv6_error (String.toList "::1-::2")).1
    (String.toList "::1") (String.toList "::2") (by decide)
  exact h.1 (by decide) (by decide) (by decide)

theorem ParseIDRange_member (s : List Char) (hm : '-' ∉ s) (hc : ',' ∉ s) :
    ParseIDRange s =
      if trimSpace s = [] then some (.error .invalidRange)
      else
        match atoi (trimSpace s) with
        | some n => some (.ok [n])
        | none => some (.error .invalidRange) := by
  have hmt : '-' ∉ trimSpace s := fun h => hm (mem_of_mem_trimSpace h)
  have hct2 : ',' ∉ trimSpace s := fun h => hc (mem_of_mem_trimSpace h)
  by_cases hne : trimSpace s = []
  · rw [if_pos hne]
    simp only [ParseIDRange, hne, if_true, ite_true]
  · rw [if_neg hne]
    have hctF : containsCh '-' (trimSpace s) = false := (containsCh_false _ _).2 hmt
    have hsplit : splitCh ',' (trimSpace s) = [trimSpace s] :=
      splitCh_no_sep _ _ hct2
    have htt : trimSpace (trimSpace s) = trimSpace s := trimSpace_idem s
    cases hat : atoi (trimSpace s) with
    | none =>
      have hmem : idMembers [trimSpace s] = .error .invalidRange := by
        simp only [idMembers, htt, hne, hat, if_false, ite_false]
      simp only [ParseIDRange, hne, hctF, hsplit, hmem, Bool.false_eq_true,
        if_false, ite_false]
    | some n =>
      have hmem : idMembers [trimSpace s] = .ok [n] := by
        simp only [idMembers, htt, hne, hat, if_false, ite_false]
      simp only [ParseIDRange, hne, hctF, hsplit, hmem, Bool.false_eq_true,
        if_false, ite_false]
      simp

theorem atoi_member_iff {t : List Char} (hmt : '-' ∉ t) (v : Int) :
    atoi t = some v ↔ idMemberSpec t v := by
  constructor
  · intro h
    rcases atoi_some_cases h with
      ⟨digits, rfl, hne, hdg, hb, hval⟩ |
      ⟨digits, heq, _, _, _, _⟩ |
      ⟨hne, hdg, hb, hval⟩
    · exact ⟨['+'], digits, rfl, Or.inr rfl, hne, hdg, hb, hval⟩
    · exact absurd (show '-' ∈ t by rw [heq]; simp) hmt
    · exact ⟨[], t, by simp, Or.inl rfl, hne, hdg, hb, hval⟩
  · rintro ⟨sign, digits, rfl, hsign, hne, hdg, hb, rfl⟩
    rcases hsign with rfl | rfl
    · simpa using atoi_digits_only hne hdg hb
    · simpa using atoi_plus hne hdg hb

/-! ## Claim C10 -/

/-- C10 counterexample: the octet with a plus sign is accepted by isIPv4
(Atoi accepts a leading sign and the leading-zero check only looks for a
zero), and the negative ID member parses as a signed integer through Atoi
yet is rejected by ParseIDRange because the minus sign diverts the whole
spec into hyphen parsing. -/
theorem c10_member_counterexample :
    isIPv4 (String.toList "1.2.3.+4") = true ∧
    atoi (String.toList "-5") = some (-5) ∧
    ParseIDRange (String.toList "-5") = some (.error .invalidRange) :=
  ⟨by decide, by decide, rfl⟩

/-- C10 (amended): an IPv4 member is accepted exactly when it has four
dot-separated parts, each an optionally signed digit run whose value lies
in the octet range (a minus sign only on value zero) with no leading zero
on a multi-digit part — so signed octets such as +4 are accepted; a spec
with no hyphen and no comma is a single ID member, accepted with value v
exactly when its trimmed form is an optionally plus-signed nonempty digit
run denoting v within the int64 range (leading zeros allowed), rejected
with InvalidRange otherwise; and any member whose Atoi value is negative
is rejected with InvalidRange, because the minus sign diverts the whole
spec into hyphen parsing. -/
theorem c10_member_lexical :
    (∀ s, isIPv4 s = true ↔
      ∃ p1 p2 p3 p4, splitCh '.' s = [p1, p2, p3, p4] ∧
        octetSpec p1 ∧ octetSpec p2 ∧ octetSpec p3 ∧ octetSpec p4) ∧
    (∀ s v, '-' ∉ s → ',' ∉ s →
      (ParseIDRange s = some (.ok [v]) ↔ idMemberSpec (trimSpace s) v)) ∧
    (∀ s, '-' ∉ s → ',' ∉ s → (∀ v, ¬idMemberSpec (trimSpace s) v) →
      ParseIDRange s = some (.error .invalidRange)) ∧
    (∀ s v, atoi (trimSpace s) = some v → v < 0 →
      ParseIDRange s = some (.error .invalidRange)) := by
  refine ⟨?_, ?_, ?_, ?_⟩
  · intro s
    constructor
    · intro h
      unfold isIPv4 at h
      by_cases hlen : (splitCh '.' s).length ≠ 4
      · rw [if_pos hlen] at h
        cases h
      · rw [if_neg hlen] at h
        push_neg at hlen
        obtain ⟨q1, q2, q3, q4, hsp⟩ := list_len4 _ hlen
        rw [hsp] at h
        simp only [List.all_cons, List.all_nil, Bool.and_eq_true,
          Bool.and_true] at h
        exact ⟨q1, q2, q3, q4, hsp, (octetOK_iff _).1 h.1,
          (octetOK_iff _).1 h.2.1, (octetOK_iff _).1 h.2.2.1,
          (octetOK_iff _).1 h.2.2.2⟩
    · rintro ⟨q1, q2, q3, q4, hsp, s1, s2, s3, s4⟩
      unfold isIPv4
      rw [hsp, if_neg (by simp)]
      simp only [List.all_cons, List.all_nil, Bool.and_eq_true, Bool.and_true]
      exact ⟨(octetOK_iff _).2 s1, (octetOK_iff _).2 s2,
        (octetOK_iff _).2 s3, (octetOK_iff _).2 s4⟩
  · intro s v hm hc
    have hmt : '-' ∉ trimSpace s := fun h => hm (mem_of_mem_trimSpace h)
    rw [ParseIDRange_member s hm hc]
    by_cases hne : trimSpace s = []
    · rw [if_pos hne]
      constructor
      · intro h
        simp at h
      · rintro ⟨sign, digits, heq, _, hne2, _, _, _⟩
        rw [hne] at heq
        exact absurd (List.append_eq_nil.mp heq.symm).2 hne2
    · rw [if_neg hne, ← atoi_member_iff hmt v]
      cases hat : atoi (trimSpace s) with
      | none => simp
      | some n => simp
  · intro s hm hc hnone
    have hmt : '-' ∉ trimSpace s := fun h => hm (mem_of_mem_trimSpace h)
    rw [ParseIDRange_member s hm hc]
    by_cases hne : trimSpace s = []
    · rw [if_pos hne]
    · rw [if_neg hne]
      cases hat : atoi (trimSpace s) with
      | none => rfl
      | some n => exact absurd ((atoi_member_iff hmt n).1 hat) (hnone n)
  · intro s v hat hvneg
    rcases atoi_some_cases hat with
      ⟨digits, heq, hne, hdg, hb, hval⟩ |
      ⟨digits, heq, hne, hdg, hb, hval⟩ |
      ⟨hne, hdg, hb, hval⟩
    · exfalso
      rw [hval] at hvneg
      omega
    · have hnd : '-' ∉ digits := not_mem_of_digits hdg (by decide)
      have hsplit : splitCh '-' (trimSpace s) = [[], digits] := by
        rw [heq, splitCh_cons_sep, splitCh_no_sep _ _ hnd]
      have hctT : containsCh '-' (trimSpace s) = true :=
        (containsCh_iff _ _).2 (by rw [heq]; simp)
      have hne2 : ¬(trimSpace s = []) := by rw [heq]; simp
      have hatoi : atoi (trimSpace ([] : List Char)) = none := rfl
      simp only [ParseIDRange, hne2, hctT, hsplit, hatoi, if_true, if_false,
        ite_false, ite_true]
    · exfalso
      rw [hval] at hvneg
      omega

/-- Witness for c10_member_lexical: the signed octet +4 satisfies the
lexical octet form through the equivalence, the zero-padded member 007 is
accepted with value 7, the empty member is rejected, and the negative
member -5 is rejected although Atoi parses it. -/
theorem c10_member_lexical_witness :
    (∃ p1 p2 p3 p4, splitCh '.' (String.toList "1.2.3.+4") = [p1, p2, p3, p4] ∧
      octetSpec p1 ∧ octetSpec p2 ∧ octetSpec p3 ∧ octetSpec p4) ∧
    ParseIDRange (String.toList "007") = some (.ok [(7 : Int)]) ∧
    ParseIDRange (String.toList "") = some (.error .invalidRange) ∧
    ParseIDRange (String.toList "-5") = some (.error .invalidRange) :=
  ⟨(c10_member_lexical.1 (String.toList "1.2.3.+4")).1 (by decide),
   (c10_member_lexical.2.1 (String.toList "007") 7 (by decide) (by decide)).2
     ⟨[], ['0', '0', '7'], by decide, Or.inl rfl, by decide, by decide,
      by decide, by decide⟩,
   c10_member_lexical.2.2.1 (String.toList "") (by decide) (by decide)
     (fun v h => by
       obtain ⟨sign, digits, heq, _, hne2, _, _, _⟩ := h
       exact hne2 (List.append_eq_nil.mp heq.symm).2),
   c10_member_lexical.2.2.2 (String.toList "-5") (-5) (by decide) (by decide)⟩

end Svcutil
